import Mathlib

/-!
# gva: a client for the varnish administration protocol

A shallow embedding of `gva.go` (package `gva`) and of the parts of the Go
standard library it calls (`fmt.Fscanf` as in `fmt/scan.go` of Go 1.22,
`unicode/utf8`, `strconv.ParseInt`, `strings.Split`, `strings.Join`,
`encoding/hex`), followed by theorems about the handshake, the command line
written to the socket and the framing of responses.

Conventions.
* A Go `string` or `[]byte` is the list of its bytes; a byte is a natural
  number (below 256 on every real stream).
* A Go `int` is an `Int`; the values that occur stay far below 2^31.
* A `rune` is a natural number; the end-of-input marker `eof = -1` of
  `fmt/scan.go` is `Option.none`.
* The global `Debug` only adds log lines and is left out; the goroutine that
  `Keepalive` starts is not modelled, only the ticker and the channel that
  `Close` touches.
-/

namespace Gva

/-! ## Bytes, strings, errors -/

/-- A Go `string` or `[]byte`: its bytes. -/
abbrev GoString := List Nat

/-- Bytes of a string literal whose characters are all ASCII. -/
def ascii (s : String) : GoString := s.data.map Char.toNat

/-- Go `error` values that can reach a caller of this package. -/
inductive GoError where
  /-- The value `io.EOF`. -/
  | EOF
  /-- An error returned by the transport (`net.Conn`), identified by its text. -/
  | net (msg : String)
  /-- A `scanError` raised by `ss.errorString` in `fmt/scan.go`. -/
  | scan (msg : String)
  /-- A `*strconv.NumError` of `ParseInt` (`syntax` or `range`). -/
  | num (kind : String)
  /-- The value `fmt.Errorf(format, args...)`, kept unrendered. -/
  | errorf (format : String) (args : List Int)
deriving DecidableEq, Repr

/-- What a call of a Go function does: it returns, it panics, or it blocks
forever (a `Lock` on a mutex that nobody releases). A function that returns
`(*T, error)` with exactly one of the two non-nil returns an `Except GoError T`;
a function that returns `error` returns an `Option GoError`, `none` being nil. -/
inductive Outcome (α : Type) where
  | ret (a : α)
  | panic (msg : String)
  | blocked
deriving DecidableEq, Repr

deriving instance DecidableEq for Except

/-! ## unicode/utf8 -/

def RuneError : Nat := 0xFFFD

def RuneSelf : Nat := 0x80

/-- The table `utf8.first` on a byte that is not ASCII: `none` for the
invalid marker `xx`, otherwise the size of the encoding and the accept range
`[lo, hi]` of its second byte (`acceptRanges[x>>4]`). -/
def first (p0 : Nat) : Option (Nat × Nat × Nat) :=
  if p0 < 0xC2 then none
  else if p0 ≤ 0xDF then some (2, 0x80, 0xBF)
  else if p0 = 0xE0 then some (3, 0xA0, 0xBF)
  else if p0 ≤ 0xEC then some (3, 0x80, 0xBF)
  else if p0 = 0xED then some (3, 0x80, 0x9F)
  else if p0 ≤ 0xEF then some (3, 0x80, 0xBF)
  else if p0 = 0xF0 then some (4, 0x90, 0xBF)
  else if p0 ≤ 0xF3 then some (4, 0x80, 0xBF)
  else if p0 = 0xF4 then some (4, 0x80, 0x8F)
  else none

/-- Continuation byte test `locb <= b && b <= hicb`. -/
def isCont (b : Nat) : Bool := 0x80 ≤ b && b ≤ 0xBF

/-- The function `utf8.FullRune`: do the bytes begin with a full encoding of a
rune? An invalid encoding counts as full, it decodes to a width-1 error rune. -/
def FullRune : List Nat → Bool
  | [] => false
  | p0 :: tl =>
    if p0 < RuneSelf then true
    else match first p0 with
      | none => true
      | some (sz, lo, hi) =>
        if sz ≤ 1 + tl.length then true
        else match tl with
          | [] => false
          | b1 :: tl1 =>
            if b1 < lo || hi < b1 then true
            else match tl1 with
              | [] => false
              | b2 :: _ => !isCont b2

/-- The function `utf8.DecodeRune`: the first rune of the bytes and its width.
The masks and shifts of the source are written with `%` and `*`. -/
def DecodeRune : List Nat → Nat × Nat
  | [] => (RuneError, 0)
  | p0 :: tl =>
    if p0 < RuneSelf then (p0, 1)
    else match first p0 with
      | none => (RuneError, 1)
      | some (sz, lo, hi) =>
        match tl with
        | [] => (RuneError, 1)
        | b1 :: tl1 =>
          if b1 < lo || hi < b1 then (RuneError, 1)
          else if sz ≤ 2 then ((p0 % 32) * 64 + b1 % 64, 2)
          else match tl1 with
            | [] => (RuneError, 1)
            | b2 :: tl2 =>
              if !isCont b2 then (RuneError, 1)
              else if sz ≤ 3 then ((p0 % 16) * 4096 + (b1 % 64) * 64 + b2 % 64, 3)
              else match tl2 with
                | [] => (RuneError, 1)
                | b3 :: _ =>
                  if !isCont b3 then (RuneError, 1)
                  else ((p0 % 8) * 262144 + (b1 % 64) * 4096 + (b2 % 64) * 64 + b3 % 64, 4)

/-! ## fmt/scan.go: the rune reader -/

/-- One rune as `readRune.ReadRune` delivers it: the rune, the number of bytes
it stands for (`size`) and the number of bytes fetched from the reader to
decode it (`pulled`, larger than `size` only after an invalid encoding, whose
extra bytes wait in `pendBuf`). -/
structure RuneTok where
  r : Nat
  size : Nat
  pulled : Nat
deriving DecidableEq, Repr

/-- The loop `for n = 1; !utf8.FullRune(r.buf[:n]); n++` of
`readRune.ReadRune` on the bytes `bs` the reader still holds: the number of
bytes in `r.buf` when the loop ends, or `none` when the reader failed with an
error other than `io.EOF` (`eofAtEnd = false`) before the rune was full. The
first argument bounds `n` by `utf8.UTFMax = 4`, where `FullRune` always holds. -/
def fillBuf (bs : List Nat) (eofAtEnd : Bool) : Nat → Nat → Option Nat
  | 0, n => some n
  | k + 1, n =>
    if FullRune (bs.take n) then some n
    else if n < bs.length then fillBuf bs eofAtEnd k (n + 1)
    else if eofAtEnd then some n
    else none

/-- The body of `readRune.ReadRune` on a reader holding the bytes `bs`
(non-empty), no rune being pending: ASCII fast path, otherwise fill the
buffer and decode. -/
def readRuneAt (bs : List Nat) (eofAtEnd : Bool) : Option RuneTok :=
  match bs with
  | [] => none
  | b0 :: _ =>
    if b0 < RuneSelf then some ⟨b0, 1, 1⟩
    else match fillBuf bs eofAtEnd 3 1 with
      | none => none
      | some n =>
        let d := DecodeRune (bs.take n)
        some ⟨d.1, d.2, n⟩

/-- The runes successive calls of `readRune.ReadRune` deliver from a reader
holding `bs`; the first argument counts bytes of the previous rune still to be
skipped. The list ends where the reader is exhausted or fails. -/
def decodeRunes (eofAtEnd : Bool) : Nat → List Nat → List RuneTok
  | _, [] => []
  | skip + 1, _ :: tl => decodeRunes eofAtEnd skip tl
  | 0, b :: tl =>
    match readRuneAt (b :: tl) eofAtEnd with
    | none => []
    | some t => t :: decodeRunes eofAtEnd (t.size - 1) tl

/-- The table `space` of `fmt/scan.go` and the function `isSpace`. -/
def isSpace (r : Nat) : Bool :=
  (0x0009 ≤ r && r ≤ 0x000d) || r = 0x0020 || r = 0x0085 || r = 0x00a0 || r = 0x1680 ||
  (0x2000 ≤ r && r ≤ 0x200a) || (0x2028 ≤ r && r ≤ 0x2029) || r = 0x202f || r = 0x205f ||
  r = 0x3000

/-! ## fmt/scan.go: the scan state -/

/-- The struct `ss` of `fmt/scan.go`, for `Fscanf` (`nlIsSpace` and `nlIsEnd`
are false). The runes the reader `rs` still has to deliver are passed next to
the state, so that the loops recurse on them.
* `rderr`: the error the reader returns once its bytes are exhausted;
* `avail`: the number of bytes the reader holds;
* `pos`: the bytes of the runes read and not unread;
* `hw`: the bytes fetched from the reader so far (a rune that was unread, and
  bytes waiting in `pendBuf`, were fetched all the same);
* `count`, `atEOF`, `argLimit`, `buf`: as in the source. -/
structure ss where
  rderr : GoError
  avail : Nat
  pos : Nat
  hw : Nat
  count : Nat
  atEOF : Bool
  argLimit : Nat
  buf : List Nat
deriving DecidableEq, Repr

/-- The constant `hugeWid = 1 << 30`, the value of `ss.limit`. -/
def hugeWid : Nat := 2 ^ 30

/-- Outcome of a scanning step: a value with the new state and the runes
left, or the error that `errorHandler` recovers, with the number of bytes
fetched from the reader at that point. -/
inductive Scan (α : Type) where
  | ok (a : α) (s : ss) (rs : List RuneTok)
  | fail (e : GoError) (hw : Nat)
deriving DecidableEq, Repr

/-- State after the reader delivered the rune `t` (`s.count++` in `ss.ReadRune`). -/
def ss.took (s : ss) (t : RuneTok) : ss :=
  { s with count := s.count + 1, pos := s.pos + t.size, hw := max s.hw (s.pos + t.pulled) }

/-- The method `ss.UnreadRune`; `t` is the rune read last, which the reader
keeps in `peekRune`; the caller puts it back in front of the runes. -/
def ss.UnreadRune (s : ss) (t : RuneTok) : ss :=
  { s with atEOF := false, count := s.count - 1, pos := s.pos - t.size }

/-- The methods `ss.ReadRune` and `ss.getRune`: `none` is `eof`. An error of the
reader other than `io.EOF` is raised with `s.error`. When the reader reports
its end, every byte it held was fetched. -/
def ss.getRune (s : ss) (rs : List RuneTok) : Scan (Option RuneTok) :=
  if s.atEOF || s.argLimit ≤ s.count then .ok none s rs
  else match rs with
    | [] =>
      match s.rderr with
      | .EOF => .ok none { s with atEOF := true, hw := max s.hw s.avail } []
      | e => .fail e s.avail
    | t :: rest => .ok (some t) (s.took t) rest

/-- The method `ss.peek`. -/
def ss.peek (s : ss) (ok : List Nat) (rs : List RuneTok) : Scan Bool :=
  match s.getRune rs with
  | .fail e h => .fail e h
  | .ok none s1 rs1 => .ok false s1 rs1
  | .ok (some t) s1 rs1 => .ok (ok.contains t.r) (s1.UnreadRune t) (t :: rs1)

/-- The method `ss.consume`. -/
def ss.consume (s : ss) (ok : List Nat) (accept : Bool) (rs : List RuneTok) : Scan Bool :=
  match s.getRune rs with
  | .fail e h => .fail e h
  | .ok none s1 rs1 => .ok false s1 rs1
  | .ok (some t) s1 rs1 =>
    if ok.contains t.r then
      .ok true (if accept then { s1 with buf := s1.buf ++ [t.r] } else s1) rs1
    else if accept then .ok false (s1.UnreadRune t) (t :: rs1)
    else .ok false s1 rs1

/-- The method `ss.accept`. -/
def ss.accept (s : ss) (ok : List Nat) (rs : List RuneTok) : Scan Bool :=
  s.consume ok true rs

/-- The method `ss.notEOF`: `panic(io.EOF)` when no rune can be read. -/
def ss.notEOF (s : ss) (rs : List RuneTok) : Scan Unit :=
  match s.getRune rs with
  | .fail e h => .fail e h
  | .ok none s1 _ => .fail .EOF s1.hw
  | .ok (some t) s1 rs1 => .ok () (s1.UnreadRune t) (t :: rs1)

/-- The method `ss.SkipSpace` with `nlIsSpace = false`. -/
def ss.SkipSpace (s : ss) : List RuneTok → Scan Unit
  | [] =>
    match s.getRune [] with
    | .fail e h => .fail e h
    | .ok _ s1 rs1 => .ok () s1 rs1
  | t :: rest =>
    match s.getRune (t :: rest) with
    | .fail e h => .fail e h
    | .ok none s1 rs1 => .ok () s1 rs1
    | .ok (some r) s1 _ =>
      match (if r.r = 13 then s1.peek [10] rest else .ok false s1 rest) with
      | .fail e h => .fail e h
      | .ok true s2 _ => ss.SkipSpace s2 rest
      | .ok false s2 _ =>
        if r.r = 10 then .fail (.scan "unexpected newline") s2.hw
        else if !isSpace r.r then .ok () (s2.UnreadRune r) (r :: rest)
        else ss.SkipSpace s2 rest

/-- The loop `for s.accept(digits) {}` of `ss.scanNumber`. -/
def ss.acceptAll (s : ss) (ok : List Nat) : List RuneTok → Scan Unit
  | [] =>
    match s.accept ok [] with
    | .fail e h => .fail e h
    | .ok _ s1 rs1 => .ok () s1 rs1
  | t :: rest =>
    match s.accept ok (t :: rest) with
    | .fail e h => .fail e h
    | .ok false s1 rs1 => .ok () s1 rs1
    | .ok true s1 _ => ss.acceptAll s1 ok rest

/-- The constant `decimalDigits = "0123456789"`. -/
def decimalDigits : List Nat := [48, 49, 50, 51, 52, 53, 54, 55, 56, 57]

/-- The constant `sign = "+-"`. -/
def sign : List Nat := [43, 45]

/-- The method `ss.scanNumber` with `haveDigits = false`; the result is
`string(s.buf)`. -/
def ss.scanNumber (s : ss) (digits : List Nat) (rs : List RuneTok) : Scan (List Nat) :=
  match s.notEOF rs with
  | .fail e h => .fail e h
  | .ok _ s1 rs1 =>
    match s1.accept digits rs1 with
    | .fail e h => .fail e h
    | .ok false s2 _ => .fail (.scan "expected integer") s2.hw
    | .ok true s2 rs2 =>
      match s2.acceptAll digits rs2 with
      | .fail e h => .fail e h
      | .ok _ s3 rs3 => .ok s3.buf s3 rs3

/-! ## strconv.ParseInt in base 10 with bitSize 64 -/

/-- The digit loop of `strconv.ParseUint(s, 10, 64)` with accumulator `n`. -/
def ParseUintLoop : List Nat → Nat → Except GoError Nat
  | [], n => .ok n
  | c :: cs, n =>
    if 48 ≤ c && c ≤ 57 then
      if n ≥ (2 ^ 64 - 1) / 10 + 1 then .error (.num "range")
      else if n * 10 + (c - 48) > 2 ^ 64 - 1 then .error (.num "range")
      else ParseUintLoop cs (n * 10 + (c - 48))
    else .error (.num "syntax")

/-- The function `strconv.ParseUint(s, 10, 64)`. -/
def ParseUint (s : List Nat) : Except GoError Nat :=
  match s with
  | [] => .error (.num "syntax")
  | _ => ParseUintLoop s 0

/-- The function `strconv.ParseInt(s, 10, 64)`. -/
def ParseInt (s : List Nat) : Except GoError Int :=
  match s with
  | [] => .error (.num "syntax")
  | c :: cs =>
    let neg := c = 45
    let s1 := if c = 43 || c = 45 then cs else c :: cs
    match ParseUint s1 with
    | .error e => .error e
    | .ok un =>
      if !neg && un ≥ 2 ^ 63 then .error (.num "range")
      else if neg && un > 2 ^ 63 then .error (.num "range")
      else .ok (if neg then - (un : Int) else (un : Int))

/-- The method `ss.scanInt` for the verb `d` and a 64-bit `int`: base 10 and
the decimal digits from `getBase`; the final test of overflow for the size of
`int` shifts by `64 - 64` and cannot fail. -/
def ss.scanInt (s : ss) (rs : List RuneTok) : Scan Int :=
  match s.SkipSpace rs with
  | .fail e h => .fail e h
  | .ok _ s1 rs1 =>
    match s1.notEOF rs1 with
    | .fail e h => .fail e h
    | .ok _ s2 rs2 =>
      match s2.accept sign rs2 with
      | .fail e h => .fail e h
      | .ok _ s3 rs3 =>
        match s3.scanNumber decimalDigits rs3 with
        | .fail e h => .fail e h
        | .ok tok s4 rs4 =>
          match ParseInt tok with
          | .error e => .fail e s4.hw
          | .ok i => .ok i s4 rs4

/-- The loop `for isSpace(inputc) && inputc != '\n' { inputc = s.getRune() }`
of `ss.advance`; the result is the last `inputc`. -/
def ss.skipBlanks (s : ss) (inputc : Option RuneTok) : List RuneTok → Scan (Option RuneTok)
  | [] =>
    match inputc with
    | none => .ok none s []
    | some c => if isSpace c.r && c.r != 10 then s.getRune [] else .ok (some c) s []
  | t :: rest =>
    match inputc with
    | none => .ok none s (t :: rest)
    | some c =>
      if isSpace c.r && c.r != 10 then
        match s.getRune (t :: rest) with
        | .fail e h => .fail e h
        | .ok none s1 rs1 => .ok none s1 rs1
        | .ok (some t1) s1 _ => ss.skipBlanks s1 (some t1) rest
      else .ok (some c) s (t :: rest)

/-- The method `ss.advance` on the format piece `" "` (a space that stands
alone: `newlines = 0`, `trailingSpace = true`). -/
def ss.advanceSpace (s : ss) (rs : List RuneTok) : Scan Unit :=
  match s.getRune rs with
  | .fail e h => .fail e h
  | .ok inputc s1 rs1 =>
    if (match inputc with | some c => !isSpace c.r | none => false) then
      .fail (.scan "expected space in input to match format") s1.hw
    else if (match inputc with | some c => c.r == 10 | none => false) then
      .fail (.scan "newline in input does not match format") s1.hw
    else
      match s1.skipBlanks inputc rs1 with
      | .fail e h => .fail e h
      | .ok none s2 rs2 => .ok () s2 rs2
      | .ok (some c) s2 rs2 => .ok () (s2.UnreadRune c) (c :: rs2)

/-- The method `ss.advance` on the format piece `"\n"` at the end of the
format (`newlines = 1`, `trailingSpace = false`). -/
def ss.advanceNewline (s : ss) (rs : List RuneTok) : Scan Unit :=
  match s.getRune rs with
  | .fail e h => .fail e h
  | .ok inputc s1 rs1 =>
    match s1.skipBlanks inputc rs1 with
    | .fail e h => .fail e h
    | .ok none s2 rs2 => .ok () s2 rs2
    | .ok (some c) s2 rs2 =>
      if c.r != 10 then .fail (.scan "newline in format does not match input") s2.hw
      else .ok () s2 rs2

/-- What `fmt.Fscanf(r, "%03d %8d\n", &status, &length)` leaves behind: the
number of operands processed, the error, the two operands (zero while not
assigned) and the number of bytes fetched from the reader. -/
structure Scanned where
  n : Nat
  err : Option GoError
  status : Int
  length : Int
  hw : Nat
deriving DecidableEq, Repr

/-- The method `ss.doScanf` on the format `"%03d %8d\n"` with two `*int`
operands, the format being walked as `doScanf` does: verb `%03d` (width 3),
the space, verb `%8d` (width 8), the newline. -/
def doScanf (s0 : ss) (rs0 : List RuneTok) : Scanned :=
  match s0.SkipSpace rs0 with
  | .fail e h => ⟨0, some e, 0, 0, h⟩
  | .ok _ s1 rs1 =>
  match ss.scanInt { s1 with argLimit := min hugeWid (s1.count + 3), buf := [] } rs1 with
  | .fail e h => ⟨0, some e, 0, 0, h⟩
  | .ok status s2 rs2 =>
  match ss.advanceSpace { s2 with argLimit := hugeWid } rs2 with
  | .fail e h => ⟨1, some e, status, 0, h⟩
  | .ok _ s3 rs3 =>
  match s3.SkipSpace rs3 with
  | .fail e h => ⟨1, some e, status, 0, h⟩
  | .ok _ s4 rs4 =>
  match ss.scanInt { s4 with argLimit := min hugeWid (s4.count + 8), buf := [] } rs4 with
  | .fail e h => ⟨1, some e, status, 0, h⟩
  | .ok length s5 rs5 =>
  match ss.advanceNewline { s5 with argLimit := hugeWid } rs5 with
  | .fail e h => ⟨2, some e, status, length, h⟩
  | .ok _ s6 _ => ⟨2, none, status, length, s6.hw⟩

/-- The function `fmt.Fscanf(r, "%03d %8d\n", &status, &length)` on a reader
without `ReadRune` that holds the bytes `bs` and then returns `rderr`. -/
def Fscanf (bs : List Nat) (rderr : GoError) : Scanned :=
  doScanf ⟨rderr, bs.length, 0, 0, 0, false, hugeWid, []⟩
    (decodeRunes (match rderr with | .EOF => true | _ => false) 0 bs)

/-! ## strings and encoding/hex -/

/-- The function `strings.Split(s, sep)` for a separator of one byte (the
package calls it with `"\n"`): the pieces of `s` between the separators. -/
def Split (s : GoString) (sep : Nat) : List GoString :=
  match s with
  | [] => [[]]
  | b :: tl =>
    if b = sep then [] :: Split tl sep
    else match Split tl sep with
      | [] => [[b]]
      | piece :: pieces => (b :: piece) :: pieces

/-- The function `strings.Join(elems, sep)`: nothing for no element, the
element itself for one, otherwise a builder that receives the first element
and then, for every further element, the separator and the element. -/
def Join (elems : List GoString) (sep : GoString) : GoString :=
  match elems with
  | [] => []
  | [e] => e
  | e :: es => es.foldl (fun b s => b ++ sep ++ s) e

/-- The constant `hextable` of `encoding/hex`. -/
def hextable : GoString := ascii "0123456789abcdef"

/-- The function `hex.EncodeToString`: two characters per byte,
`hextable[v>>4]` and `hextable[v&0x0f]`. -/
def EncodeToString (src : List Nat) : GoString :=
  match src with
  | [] => []
  | v :: vs => hextable.getD (v / 16) 0 :: hextable.getD (v % 16) 0 :: EncodeToString vs

/-- A value of type `[32]byte`, the result of `sha256.Sum256`. -/
structure Digest where
  bytes : List Nat
  size : bytes.length = 32
  range : ∀ b ∈ bytes, b < 256

/-! ## The socket -/

/-- The error `net.ErrClosed` that a closed `net.Conn` returns. -/
def ErrClosed : GoError := .net "use of closed network connection"

/-- The state of the `net.Conn` behind a connection, seen from the client.
* `input`: the bytes the peer sends, in the chunks in which they become
  available: a `Read` returns bytes of the first chunk that is not empty, so
  that it can return fewer bytes than requested;
* `rderr`: what `Read` returns once `input` is exhausted (`io.EOF` after an
  orderly shutdown by the peer);
* `writes`: the argument of every `Write` call so far, oldest first;
* `werrs`: the results of the `Write` calls to come (nil once the list is
  exhausted);
* `closed`: `Close` was called; `closeErr`: what the first `Close` returns. -/
structure Sock where
  input : List (List Nat)
  rderr : GoError
  writes : List (List Nat)
  werrs : List (Option GoError)
  closed : Bool
  closeErr : Option GoError
deriving DecidableEq, Repr

/-- The chunks left after `k` bytes were read one at a time. -/
def dropBytes : Nat → List (List Nat) → List (List Nat)
  | _, [] => []
  | k, c :: rest => if k < c.length then c.drop k :: rest else dropBytes (k - c.length) rest

/-- A single `Read` into a buffer of `n > 0` bytes: the bytes returned and the
chunks left, `none` when no byte is left. -/
def readChunk (n : Nat) : List (List Nat) → Option (List Nat × List (List Nat))
  | [] => none
  | [] :: rest => readChunk n rest
  | (b :: bs) :: rest => some ((b :: bs).take n, (b :: bs).drop n :: rest)

/-- The method `Read` of the socket on a buffer of `n` bytes. A buffer of no
bytes reads nothing and returns nil. -/
def Sock.Read (s : Sock) (n : Nat) : Sock × Except GoError (List Nat) :=
  if s.closed then (s, .error ErrClosed)
  else if n = 0 then (s, .ok [])
  else match readChunk n s.input with
    | none => ({ s with input := [] }, .error s.rderr)
    | some (bs, rest) => ({ s with input := rest }, .ok bs)

/-- The method `Write` of the socket. -/
def Sock.Write (s : Sock) (b : List Nat) : Sock × Option GoError :=
  if s.closed then ({ s with writes := s.writes ++ [b] }, some ErrClosed)
  else ({ s with writes := s.writes ++ [b], werrs := s.werrs.tail }, s.werrs.head?.join)

/-- The method `Close` of the socket. -/
def Sock.Close (s : Sock) : Sock × Option GoError :=
  if s.closed then (s, some ErrClosed)
  else ({ s with closed := true }, s.closeErr)

/-- The bytes and the final error that a reader on the socket delivers to
`Fscanf`, which fetches them one byte at a time with `io.ReadFull`. -/
def Sock.reader (s : Sock) : List Nat × GoError :=
  if s.closed then ([], ErrClosed) else (s.input.flatten, s.rderr)

/-! ## gva.go -/

def CLIS_SYNTAX : Int := 100

def CLIS_UNKNOWN : Int := 101

def CLIS_UNIMPL : Int := 102

def CLIS_TOOFEW : Int := 104

def CLIS_TOOMANY : Int := 105

def CLIS_PARAM : Int := 106

def CLIS_AUTH : Int := 107

def CLIS_OK : Int := 200

def CLIS_TRUNCATED : Int := 201

def CLIS_CANT : Int := 300

def CLIS_COMMS : Int := 400

def CLIS_CLOSE : Int := 500

structure Response where
  Status : Int
  Body : GoString
deriving DecidableEq, Repr

def Response.IsSuccess (r : Response) : Bool := r.Status == CLIS_OK

/-- The ticker and the channel `quit` that one call of `Keepalive` creates. -/
structure Keep where
  tickerStopped : Bool
  quitClosed : Bool
deriving DecidableEq, Repr

/-- An operation on the mutex or on the socket, for the trace of a connection. -/
inductive Event where
  | lock
  | unlock
  | write (b : List Nat)
  | read
deriving DecidableEq, Repr

/-- The struct `Connection`.
* `locked`: the embedded `sync.Mutex`;
* `conn`: the socket, `none` for nil;
* `stop`: `none` for nil, `some i` for the closure that the `i`-th call of
  `Keepalive` built over its ticker and its channel, `keeps[i]`;
* `keeps`: the tickers and channels made so far;
* `trace`: the operations on the mutex and the socket so far, oldest first
  (not a field of the source: it records the order of the operations). -/
structure Connection where
  locked : Bool
  conn : Option Sock
  stop : Option Nat
  keeps : List Keep
  trace : List Event
deriving DecidableEq, Repr

/-- The method `Connection.write`: one `Write` of the command and the
arguments joined by spaces, with a newline. A nil socket panics. -/
def Connection.write (c : Connection) (command : GoString) (args : List GoString) :
    Connection × Outcome (Option GoError) :=
  let buf := command :: args
  let body := Join buf (ascii " ") ++ ascii "\n"
  match c.conn with
  | none => (c, .panic "invalid memory address or nil pointer dereference")
  | some sock =>
    let w := sock.Write body
    ({ c with conn := some w.1, trace := c.trace ++ [Event.write body] }, .ret w.2)

/-- The method `Connection.read`. The error built when the byte count of the
body differs from the buffer size is dropped by the source, so nothing
happens there. -/
def Connection.read (c : Connection) : Connection × Outcome (Except GoError Response) :=
  match c.conn with
  | none => (c, .panic "invalid memory address or nil pointer dereference")
  | some sock =>
    let f := Fscanf sock.reader.1 sock.reader.2
    let sock1 := { sock with input := dropBytes f.hw sock.input }
    let c1 := { c with conn := some sock1, trace := c.trace ++ [Event.read] }
    match f.err with
    | some e => (c1, .ret (.error e))
    | none =>
      if f.n ≠ 2 then (c1, .ret (.error (.errorf "read %d headers, expected 2" [f.n])))
      else if f.length + 1 < 0 then (c1, .panic "makeslice: len out of range")
      else
        let size := (f.length + 1).toNat
        match sock1.Read size with
        | (sock2, .error e) => ({ c1 with conn := some sock2 }, .ret (.error e))
        | (sock2, .ok bs) =>
          let buf := bs ++ List.replicate (size - bs.length) 0
          let c2 := { c1 with conn := some sock2 }
          if buf.length = 0 then (c2, .panic "slice bounds out of range [:-1]")
          else (c2, .ret (.ok ⟨f.status, buf.take (buf.length - 1)⟩))

/-- The method `Lock` of the mutex, on a mutex that is free. -/
def Connection.Lock (c : Connection) : Connection :=
  { c with locked := true, trace := c.trace ++ [Event.lock] }

/-- The method `Unlock` of the mutex. -/
def Connection.Unlock (c : Connection) : Connection :=
  { c with locked := false, trace := c.trace ++ [Event.unlock] }

/-- The method `Connection.Cmd`: `Lock` (which blocks while the mutex is
held), deferred `Unlock` (it also runs when the body panics), `write`, `read`. -/
def Connection.Cmd (c : Connection) (command : GoString) (args : List GoString) :
    Connection × Outcome (Except GoError Response) :=
  if c.locked then (c, .blocked)
  else
    match c.Lock.write command args with
    | (c2, .ret (some e)) => (c2.Unlock, .ret (.error e))
    | (c2, .ret none) =>
      let r := c2.read
      (r.1.Unlock, r.2)
    | (c2, .panic m) => (c2.Unlock, .panic m)
    | (c2, .blocked) => (c2, .blocked)

/-- The method `Connection.auth`; `Sum256` stands for `sha256.Sum256`. -/
def Connection.auth (Sum256 : GoString → Digest) (c : Connection) (secret : Option GoString) :
    Connection × Outcome (Option GoError) :=
  match c.read with
  | (c1, .panic m) => (c1, .panic m)
  | (c1, .blocked) => (c1, .blocked)
  | (c1, .ret (.error e)) => (c1, .ret (some e))
  | (c1, .ret (.ok resp)) =>
    match secret with
    | some sec =>
      if resp.Status = CLIS_AUTH then
        match Split resp.Body 10 with
        | [] => (c1, .panic "index out of range [0] with length 0")
        | challenge :: _ =>
          let response := Sum256 (challenge ++ ascii "\n" ++ sec ++ challenge ++ ascii "\n")
          match c1.Cmd (ascii "auth") [EncodeToString response.bytes] with
          | (c2, .panic m) => (c2, .panic m)
          | (c2, .blocked) => (c2, .blocked)
          | (c2, .ret (.error e)) => (c2, .ret (some e))
          | (c2, .ret (.ok resp2)) =>
            if !resp2.IsSuccess then
              (c2, .ret (some (GoError.errorf "authentication failed with %d" [resp2.Status])))
            else (c2, .ret none)
      else
        (c1, .ret (some (GoError.errorf
          "secret was passed, but status %d was returned (expected CLIS_AUTH)" [resp.Status])))
    | none =>
      if !resp.IsSuccess then
        (c1, .ret (some (GoError.errorf
          "secret was not passed, but status %d was returned (expected CLIS_OK)" [resp.Status])))
      else (c1, .ret none)

/-- The function `NewConnection`; `dial` is the result of `net.DialTimeout`.
The result is the pair `(*Connection, error)`. -/
def NewConnection (Sum256 : GoString → Digest) (dial : Except GoError Sock)
    (secret : Option GoString) : Outcome (Option Connection × Option GoError) :=
  match dial with
  | .error err => .ret (none, some err)
  | .ok conn =>
    let c : Connection := ⟨false, some conn, none, [], []⟩
    match c.auth Sum256 secret with
    | (c1, .ret e) => .ret (some c1, e)
    | (_, .panic m) => .panic m
    | (_, .blocked) => .blocked

/-- The method `Connection.Keepalive`: a new ticker (`time.NewTicker` panics
on an interval that is not positive) and a new channel `quit`; `c.stop`
becomes the closure over the two. The goroutine that pings on every tick is
not part of the model. -/
def Connection.Keepalive (c : Connection) (interval : Int) : Connection × Outcome Unit :=
  if interval ≤ 0 then (c, .panic "non-positive interval for NewTicker")
  else ({ c with stop := some c.keeps.length, keeps := c.keeps ++ [⟨false, false⟩] }, .ret ())

/-- The closure `c.stop`: `ticker.Stop()`, then `close(quit)`, which panics on
a channel that is closed already. -/
def Connection.callStop (c : Connection) (i : Nat) : Connection × Outcome Unit :=
  match c.keeps.get? i with
  | none => (c, .ret ())
  | some k =>
    if k.quitClosed then
      ({ c with keeps := c.keeps.set i ⟨true, true⟩ }, .panic "close of closed channel")
    else ({ c with keeps := c.keeps.set i ⟨true, true⟩ }, .ret ())

/-- The method `Connection.Close`. -/
def Connection.Close (c : Connection) : Connection × Outcome (Option GoError) :=
  match (match c.stop with
    | some i => c.callStop i
    | none => (c, .ret ())) with
  | (c1, .panic m) => (c1, .panic m)
  | (c1, .blocked) => (c1, .blocked)
  | (c1, .ret _) =>
    match c1.conn with
    | some sock =>
      let r := sock.Close
      ({ c1 with conn := some r.1 }, .ret r.2)
    | none => (c1, .ret none)

/-- The bytes handed to `Write` so far on the socket of a connection. -/
def Connection.written (c : Connection) : List (List Nat) :=
  match c.conn with
  | some s => s.writes
  | none => []

/-- The request line of the protocol for a command and its arguments, as the
specification words it: the command and the arguments, each argument after a
single space (byte 32), then one newline (byte 10). -/
def requestLine (command : GoString) (args : List GoString) : GoString :=
  command ++ (args.map (fun a => 32 :: a)).flatten ++ [10]

/-- What identifies the socket of a connection whatever was read or written
on it: its final read error, whether it is closed, and what closing it returns. -/
def Connection.endpoint (c : Connection) : Option (GoError × Bool × Option GoError) :=
  match c.conn with
  | some s => some (s.rderr, s.closed, s.closeErr)
  | none => none

/-- A lowercase hexadecimal digit, as the specification words the encoding:
`0` to `9`, then `a` to `f`. -/
def hexDigit (n : Nat) : Nat := if n < 10 then 48 + n else 97 + (n - 10)

/-- Lowercase hexadecimal encoding of bytes, two digits per byte, the high
half first. -/
def hexLower (bs : List Nat) : GoString :=
  (bs.map (fun v => [hexDigit (v / 16), hexDigit (v % 16)])).flatten

/-- The challenge of a greeting body, as the specification words it: the
part of the body before its first newline, the whole body when it has none. -/
def challengeOf (body : GoString) : GoString := body.takeWhile (fun b => b != 10)

/-- The line of the `auth` command as the specification words it: `auth`, a
space, the lowercase hexadecimal digest of
`challenge + "\n" + secret + challenge + "\n"`, a newline. -/
def authLine (Sum256 : GoString → Digest) (body secret : GoString) : GoString :=
  ascii "auth " ++
    hexLower (Sum256 (challengeOf body ++ [10] ++ secret ++ challengeOf body ++ [10])).bytes ++
    [10]

/-- A stand-in for `sha256.Sum256` on which the model can be run: the first
32 bytes of the message, padded with zeros. Every theorem below holds for any
function in its place. -/
def stubSum256 (m : GoString) : Digest :=
  ⟨(List.range 32).map (fun i => m.getD i 0 % 256), by simp,
    by intro b hb; simp only [List.mem_map] at hb; obtain ⟨i, _, rfl⟩ := hb; omega⟩

/-- A socket that is open, on which nothing was written, whose writes and
whose `Close` succeed, and on which the peer sends the given chunks and then
shuts down. -/
def Sock.fresh (chunks : List (List Nat)) : Sock := ⟨chunks, .EOF, [], [], false, none⟩

/-- The connection that `NewConnection` builds around a socket. -/
def Connection.fresh (chunks : List (List Nat)) : Connection :=
  ⟨false, some (Sock.fresh chunks), none, [], []⟩

/-- The number `n` written with `w` decimal digits, padded with zeros on the
left: what the verbs `%03d` and `%08d` of the protocol print for `n < 10^w`. -/
def zeroPad : Nat → Nat → List Nat
  | 0, _ => []
  | w + 1, n => zeroPad w (n / 10) ++ [48 + n % 10]

/-- The header of a response, as the specification words it: the status on 3
digits, a space, the length of the body on 8 digits, a newline. -/
def header (status : Nat) (length : Nat) : GoString :=
  zeroPad 3 status ++ [32] ++ zeroPad 8 length ++ [10]

/-- The rune that `readRune.ReadRune` delivers for an ASCII byte. -/
def asciiTok (b : Nat) : RuneTok := ⟨b, 1, 1⟩

/-- The bytes of one blank character: the UTF-8 encoding of a character of
the table `space` other than the newline. These are tab, vertical tab, form
feed, carriage return and space on one byte, U+0085 and U+00A0 on two bytes,
and U+1680, U+2000 to U+200A, U+2028, U+2029, U+202F, U+205F and U+3000 on
three bytes. -/
def blankChar : List Nat → Bool
  | [b] => b == 9 || b == 11 || b == 12 || b == 13 || b == 32
  | [a, b] => a == 0xC2 && (b == 0x85 || b == 0xA0)
  | [a, b, d] =>
    (a == 0xE1 && b == 0x9A && d == 0x80) ||
    (a == 0xE2 && b == 0x80 &&
      ((decide (0x80 ≤ d) && decide (d ≤ 0x8A)) || d == 0xA8 || d == 0xA9 || d == 0xAF)) ||
    (a == 0xE2 && b == 0x81 && d == 0x9F) ||
    (a == 0xE3 && b == 0x80 && d == 0x80)
  | _ => false

/-- A byte with which a blank character can begin. Bytes that hold no such
byte hold no blank character (the converse does not hold: 0xC2 also begins
other characters). -/
def blankLead (b : Nat) : Bool :=
  b == 9 || b == 11 || b == 12 || b == 13 || b == 32 || b == 0xC2 || b == 0xE1 || b == 0xE2 ||
    b == 0xE3

/-- A decimal digit. -/
def isDigit (b : Nat) : Bool := decide (48 ≤ b) && decide (b ≤ 57)

/-- A number as the verb `%d` takes it under a width of `w` characters: an
optional sign, then at least one decimal digit, `w` characters at most. -/
def numToken (w : Nat) (tok : List Nat) : Bool :=
  decide (tok.length ≤ w) &&
    match tok with
    | [] => false
    | c :: cs =>
      if c = 43 ∨ c = 45 then !cs.isEmpty && cs.all isDigit else (c :: cs).all isDigit

/-- The header has the exact form of the protocol: 3 digits, a space, 8
digits, a newline. -/
def exactHeader (bs : List Nat) : Bool :=
  match bs with
  | s1 :: s2 :: s3 :: sp :: l1 :: l2 :: l3 :: l4 :: l5 :: l6 :: l7 :: l8 :: nl :: _ =>
    [s1, s2, s3, l1, l2, l3, l4, l5, l6, l7, l8].all isDigit && sp == 32 && nl == 10
  | _ => false

/-- The bytes `bs` are a header followed by `rest`, where the header is, in
this order: blank characters `lead`, a number `tok1` of at most 3 characters
with the value `status`, at least one blank character `sep`, a number `tok2`
of at most 8 characters with the value `length`, blank characters `trail`.
The header has `chars` characters. -/
def HeaderForm (bs : List Nat) (status length : Int) (rest : List Nat) (chars : Nat) : Prop :=
  ∃ (lead : List (List Nat)) (tok1 : List Nat) (sep : List (List Nat)) (tok2 : List Nat)
      (trail : List (List Nat)),
    bs = lead.flatten ++ tok1 ++ sep.flatten ++ tok2 ++ trail.flatten ++ rest ∧
    lead.all blankChar = true ∧ numToken 3 tok1 = true ∧ ParseInt tok1 = .ok status ∧
    sep ≠ [] ∧ sep.all blankChar = true ∧ numToken 8 tok2 = true ∧
    ParseInt tok2 = .ok length ∧ trail.all blankChar = true ∧
    chars = lead.length + tok1.length + sep.length + tok2.length + trail.length

/-- The bytes begin with a header in the form that the scan of the format
`"%03d %8d\n"` accepts, with the values it assigns: blank characters, a
number of at most 3 characters, at least one blank character, a number of at
most 8 characters, blank characters, and then a newline, unless the header
has 2^30 characters or more. -/
def LenientHeader (bs : List Nat) (status length : Int) : Prop :=
  ∃ rest chars, HeaderForm bs status length rest chars ∧
    (rest.head? = some 10 ∨ 2 ^ 30 ≤ chars)

/-- The bytes are a header of that form and nothing more: the stream ends
where the newline is expected. -/
def CutHeader (bs : List Nat) (status length : Int) : Prop :=
  ∃ chars, HeaderForm bs status length [] chars

/-! ## Relations between scan states, for the proofs -/

/-- Once the scan state has seen the end of the reader, every byte was
fetched, no rune is left and the reader has returned `io.EOF`. -/
def Inv (s : ss) (rs : List RuneTok) : Prop :=
  s.atEOF = true → s.avail ≤ s.hw ∧ rs = [] ∧ s.rderr = .EOF

/-- The scan state can read no further rune: `getRune` returns `eof`. -/
def Stuck (s : ss) : Prop := s.atEOF = true ∨ s.argLimit ≤ s.count

/-- The scan state `s'` with the runes `rs'` left is reached from `s` with
`rs` by reading the runes `ws`. -/
def Adv (s : ss) (rs : List RuneTok) (s' : ss) (rs' : List RuneTok) (ws : List RuneTok) :
    Prop :=
  rs = ws ++ rs' ∧ s'.count = s.count + ws.length ∧ s'.argLimit = s.argLimit ∧
  (s'.avail = s.avail ∧ s'.rderr = s.rderr) ∧ s.hw ≤ s'.hw ∧ Inv s' rs'

/-- The runes are blanks: spaces other than the newline. -/
def blankRunes (ws : List RuneTok) : Prop := ∀ t ∈ ws, isSpace t.r = true ∧ t.r ≠ 10

/-! ## Lemmas on the socket operations -/

theorem Sock.Read_writes (s : Sock) (n : Nat) : (s.Read n).1.writes = s.writes := by
  unfold Sock.Read
  split
  · rfl
  · split
    · rfl
    · split <;> rfl

theorem Sock.Read_endpoint (s : Sock) (n : Nat) :
    (s.Read n).1.rderr = s.rderr ∧ (s.Read n).1.closed = s.closed ∧
    (s.Read n).1.closeErr = s.closeErr := by
  unfold Sock.Read
  split
  · simp
  · split
    · simp
    · split <;> simp

theorem Connection.read_endpoint (c : Connection) : (c.read).1.endpoint = c.endpoint := by
  unfold Connection.read
  cases hc : c.conn with
  | none => simp [hc, Connection.endpoint]
  | some sock =>
    simp only []
    split
    · simp [Connection.endpoint, hc]
    · split
      · simp [Connection.endpoint, hc]
      · split
        · simp [Connection.endpoint, hc]
        · have hw := Sock.Read_endpoint
            { sock with input := dropBytes (Fscanf sock.reader.1 sock.reader.2).hw sock.input }
            ((Fscanf sock.reader.1 sock.reader.2).length + 1).toNat
          split
          · rename_i h
            rw [h] at hw
            simp only [] at hw
            simp [Connection.endpoint, hc, hw]
          · rename_i h
            rw [h] at hw
            simp only [] at hw
            split <;> simp [Connection.endpoint, hc, hw]

theorem Connection.read_frame (c : Connection) :
    (c.read).1.locked = c.locked ∧ (c.read).1.stop = c.stop ∧ (c.read).1.keeps = c.keeps ∧
    (c.read).1.written = c.written ∧
    (c.read).1.trace = c.trace ++ (if c.conn.isSome then [Event.read] else []) := by
  unfold Connection.read
  cases hc : c.conn with
  | none => simp [hc, Connection.written]
  | some sock =>
    simp only [Option.isSome_some, if_true]
    split
    · simp [Connection.written, hc]
    · split
      · simp [Connection.written, hc]
      · split
        · simp [Connection.written, hc]
        · have hw := Sock.Read_writes
            { sock with input := dropBytes (Fscanf sock.reader.1 sock.reader.2).hw sock.input }
            ((Fscanf sock.reader.1 sock.reader.2).length + 1).toNat
          split
          · rename_i h
            rw [h] at hw
            simp only [] at hw
            simp [Connection.written, hc, hw]
          · rename_i h
            rw [h] at hw
            simp only [] at hw
            split <;> simp [Connection.written, hc, hw]

theorem Join_eq (e : GoString) (es : List GoString) (sep : GoString) :
    Join (e :: es) sep = e ++ (es.map (fun a => sep ++ a)).flatten := by
  have h : ∀ (l : List GoString) (b : GoString),
      l.foldl (fun b s => b ++ sep ++ s) b = b ++ (l.map (fun a => sep ++ a)).flatten := by
    intro l
    induction l with
    | nil => intro b; simp
    | cons a l ih => intro b; rw [List.foldl_cons, ih]; simp
  cases es with
  | nil => simp [Join]
  | cons a l => simp only [Join]; exact h _ _

theorem Sock.Write_writes (s : Sock) (b : List Nat) : (s.Write b).1.writes = s.writes ++ [b] := by
  unfold Sock.Write
  split <;> rfl

theorem Connection.write_some (c : Connection) (sock : Sock) (command : GoString)
    (args : List GoString) (hconn : c.conn = some sock) :
    c.write command args =
      ({ c with conn := some (sock.Write (requestLine command args)).1,
                trace := c.trace ++ [Event.write (requestLine command args)] },
       .ret (sock.Write (requestLine command args)).2) := by
  have hj : Join (command :: args) (ascii " ") ++ ascii "\n" = requestLine command args := by
    rw [Join_eq]
    simp [requestLine, ascii]
  unfold Connection.write
  simp only [hconn, hj]

theorem Connection.Cmd_written (c : Connection) (sock : Sock) (command : GoString)
    (args : List GoString) (hfree : c.locked = false) (hconn : c.conn = some sock) :
    (c.Cmd command args).1.written = sock.writes ++ [requestLine command args] := by
  have hw := Connection.write_some c.Lock sock command args (by simpa [Connection.Lock] using hconn)
  unfold Connection.Cmd
  simp only [hfree, Bool.false_eq_true, if_false]
  rw [hw]
  cases hres : (sock.Write (requestLine command args)).2 with
  | some e =>
    simp [Connection.Unlock, Connection.written, Sock.Write_writes]
  | none =>
    simp only []
    rw [show (Connection.Unlock _).written = (Connection.read _).1.written from rfl]
    rw [(Connection.read_frame _).2.2.2.1]
    simp [Connection.written, Sock.Write_writes]

/-- C3: for every command and every list of arguments, on a connection whose
mutex is free and whose socket is present, `Cmd` hands the socket exactly one
`Write`, whose bytes are the command and the arguments joined by single
spaces and followed by one newline, no byte of an argument being changed. -/
theorem Cmd_writes_request_line (c : Connection) (sock : Sock) (command : GoString)
    (args : List GoString) (hfree : c.locked = false) (hconn : c.conn = some sock) :
    (c.Cmd command args).1.written =
      sock.writes ++ [command ++ (args.map (fun a => 32 :: a)).flatten ++ [10]] :=
  Connection.Cmd_written c sock command args hfree hconn

/-- The command of the `vcl.inline` test, with its argument of several lines. -/
theorem Cmd_writes_request_line_witness :
    ((Connection.fresh []).Cmd
        (ascii "vcl.inline") [ascii "hello", ascii "<< VCL\nvcl 4.0;\nVCL"]).1.written =
      [] ++ [ascii "vcl.inline" ++
        ([ascii "hello", ascii "<< VCL\nvcl 4.0;\nVCL"].map (fun a => 32 :: a)).flatten ++ [10]] :=
  Cmd_writes_request_line _ _ _ _ rfl rfl

/-- C8: on a connection whose mutex is free, `Cmd` locks the mutex, performs
the write and the read with the mutex held, and returns with the mutex free
on every path: when the write fails it returns that error and performs no
read; otherwise it returns what the read returns, error or response. -/
theorem Cmd_holds_and_releases_lock (c : Connection) (command : GoString)
    (args : List GoString) (hfree : c.locked = false) :
    (c.Lock.write command args).1.locked = true ∧
    (c.Cmd command args).1.locked = false ∧
    (∀ e, (c.Lock.write command args).2 = .ret (some e) →
      (c.Cmd command args).2 = .ret (.error e) ∧
      (c.Cmd command args).1.trace =
        c.trace ++ [Event.lock, Event.write (requestLine command args), Event.unlock]) ∧
    ((c.Lock.write command args).2 = .ret none →
      ((c.Lock.write command args).1.read).1.locked = true ∧
      (c.Cmd command args).2 = ((c.Lock.write command args).1.read).2 ∧
      (c.Cmd command args).1.trace =
        c.trace ++ [Event.lock, Event.write (requestLine command args), Event.read,
          Event.unlock]) := by
  cases hconn : c.conn with
  | none =>
    have hw : c.Lock.write command args =
        (c.Lock, .panic "invalid memory address or nil pointer dereference") := by
      unfold Connection.write
      simp [Connection.Lock, hconn]
    unfold Connection.Cmd
    simp only [hfree, Bool.false_eq_true, if_false]
    rw [hw]
    simp [Connection.Unlock, Connection.Lock]
  | some sock =>
    have hw := Connection.write_some c.Lock sock command args
      (by simpa [Connection.Lock] using hconn)
    unfold Connection.Cmd
    simp only [hfree, Bool.false_eq_true, if_false]
    rw [hw]
    cases hres : (sock.Write (requestLine command args)).2 with
    | some e =>
      simp [Connection.Unlock, Connection.Lock]
    | none =>
      have hf := Connection.read_frame
        { c.Lock with conn := some (sock.Write (requestLine command args)).1,
                      trace := c.Lock.trace ++ [Event.write (requestLine command args)] }
      simp only [Connection.Unlock, hf.1, hf.2.2.2.2]
      simp [Connection.Lock]

/-- A `ping` answered by `200 00000002\nhi\n` leaves the mutex free. -/
theorem Cmd_holds_and_releases_lock_witness :
    ((Connection.fresh [ascii "200 00000002\nhi\n"]).Cmd (ascii "ping") []).1.locked = false :=
  (Cmd_holds_and_releases_lock _ (ascii "ping") [] rfl).2.1

theorem Connection.read_ret_conn (c c1 : Connection) (r : Except GoError Response)
    (h : c.read = (c1, .ret r)) : ∃ sock, c.conn = some sock := by
  cases hc : c.conn with
  | none =>
    unfold Connection.read at h
    simp [hc] at h
  | some sock => exact ⟨sock, rfl⟩

theorem Connection.endpoint_some (c : Connection) (x : GoError × Bool × Option GoError)
    (h : c.endpoint = some x) : ∃ sock, c.conn = some sock ∧ x = (sock.rderr, sock.closed, sock.closeErr) := by
  unfold Connection.endpoint at h
  cases hc : c.conn with
  | none => simp [hc] at h
  | some sock => simp [hc] at h; exact ⟨sock, rfl, h.symm⟩

theorem Split_head (s : GoString) (sep : Nat) :
    ∃ rest, Split s sep = s.takeWhile (fun b => b != sep) :: rest := by
  induction s with
  | nil => exact ⟨[], rfl⟩
  | cons b tl ih =>
    obtain ⟨rest, hrest⟩ := ih
    unfold Split
    by_cases hb : b = sep
    · simp [hb]
    · simp [hb, hrest]

theorem hextable_getD : ∀ n, n < 16 → hextable.getD n 0 = hexDigit n := by
  decide

theorem EncodeToString_eq (bs : List Nat) (h : ∀ b ∈ bs, b < 256) :
    EncodeToString bs = hexLower bs := by
  induction bs with
  | nil => rfl
  | cons v vs ih =>
    have hv : v < 256 := h v (List.mem_cons_self _ _)
    unfold EncodeToString
    rw [ih (fun b hb => h b (List.mem_cons_of_mem _ hb)),
      hextable_getD (v / 16) (by omega), hextable_getD (v % 16) (by omega)]
    simp [hexLower]

theorem hexLower_length (bs : List Nat) : (hexLower bs).length = 2 * bs.length := by
  induction bs with
  | nil => rfl
  | cons v vs ih =>
    have : hexLower (v :: vs) = hexDigit (v / 16) :: hexDigit (v % 16) :: hexLower vs := by
      simp [hexLower]
    rw [this]
    simp [ih]
    omega

theorem Connection.auth_tail (X : Connection × Outcome (Except GoError Response)) :
    (match X with
      | (c2, .panic m) => ((c2, .panic m) : Connection × Outcome (Option GoError))
      | (c2, .blocked) => (c2, .blocked)
      | (c2, .ret (.error e)) => (c2, .ret (some e))
      | (c2, .ret (.ok resp2)) =>
        if !resp2.IsSuccess then
          (c2, .ret (some (GoError.errorf "authentication failed with %d" [resp2.Status])))
        else (c2, .ret none)).1 = X.1 ∧
    ((match X with
      | (c2, .panic m) => ((c2, .panic m) : Connection × Outcome (Option GoError))
      | (c2, .blocked) => (c2, .blocked)
      | (c2, .ret (.error e)) => (c2, .ret (some e))
      | (c2, .ret (.ok resp2)) =>
        if !resp2.IsSuccess then
          (c2, .ret (some (GoError.errorf "authentication failed with %d" [resp2.Status])))
        else (c2, .ret none)).2 = .ret none ↔
      ∃ r, X.2 = .ret (.ok r) ∧ r.Status = 200) := by
  obtain ⟨c2, o⟩ := X
  cases o with
  | panic m => simp
  | blocked => simp
  | ret x =>
    cases x with
    | error e => simp
    | ok r =>
      simp only [Response.IsSuccess, CLIS_OK]
      by_cases h : r.Status = 200 <;> simp [h]

/-- The state and the outcome of `auth` once the greeting was read with
status 107 and a secret is present: those of the `auth` command. -/
theorem Connection.auth_107 (Sum256 : GoString → Digest) (c c1 : Connection) (body sec : GoString)
    (hread : c.read = (c1, .ret (.ok ⟨107, body⟩))) :
    (c.auth Sum256 (some sec)).1 =
      (c1.Cmd (ascii "auth")
        [hexLower (Sum256 (challengeOf body ++ [10] ++ sec ++ challengeOf body ++ [10])).bytes]).1 ∧
    ((c.auth Sum256 (some sec)).2 = .ret none ↔
      ∃ r, (c1.Cmd (ascii "auth")
        [hexLower (Sum256 (challengeOf body ++ [10] ++ sec ++ challengeOf body ++ [10])).bytes]).2
          = .ret (.ok r) ∧ r.Status = 200) := by
  obtain ⟨rest, hsplit⟩ := Split_head body 10
  unfold Connection.auth
  rw [hread]
  simp only [CLIS_AUTH, if_true, hsplit]
  rw [EncodeToString_eq _ (Sum256 _).range]
  exact Connection.auth_tail _

theorem Connection.auth_written (Sum256 : GoString → Digest) (c c1 : Connection)
    (body sec : GoString) (hfree : c.locked = false)
    (hread : c.read = (c1, .ret (.ok ⟨107, body⟩))) :
    (c.auth Sum256 (some sec)).1.written = c.written ++ [authLine Sum256 body sec] := by
  have hf := Connection.read_frame c
  have he := Connection.read_endpoint c
  rw [hread] at hf he
  simp only [] at hf he
  obtain ⟨sock, hsock⟩ := Connection.read_ret_conn c c1 _ hread
  have he1 : c1.endpoint = some (sock.rderr, sock.closed, sock.closeErr) := by
    rw [he]; simp [Connection.endpoint, hsock]
  obtain ⟨sock1, hsock1, -⟩ := Connection.endpoint_some c1 _ he1
  rw [(Connection.auth_107 Sum256 c c1 body sec hread).1,
    Connection.Cmd_written c1 sock1 _ _ (hf.1.trans hfree) hsock1]
  have hw : sock1.writes = c.written := by
    rw [← hf.2.2.2.1]; simp [Connection.written, hsock1]
  rw [hw]
  simp [requestLine, authLine, ascii]

/-- C2: for every secret and every greeting body read with status 107, on a
connection whose mutex is free, the one line that `auth` hands to the socket
is `auth`, a space, the 64 lowercase hexadecimal characters of
`Sum256(challenge + "\n" + secret + challenge + "\n")` and a newline, the
challenge being the body up to its first newline: a function of the body and
the secret alone. -/
theorem auth_writes_digest_line (Sum256 : GoString → Digest) (c c1 : Connection)
    (body secret : GoString) (hfree : c.locked = false)
    (hread : c.read = (c1, .ret (.ok ⟨107, body⟩))) :
    (c.auth Sum256 (some secret)).1.written =
      c.written ++
        [ascii "auth " ++
          hexLower (Sum256 (body.takeWhile (fun b => b != 10) ++ [10] ++ secret ++
            body.takeWhile (fun b => b != 10) ++ [10])).bytes ++ [10]] ∧
    (hexLower (Sum256 (body.takeWhile (fun b => b != 10) ++ [10] ++ secret ++
      body.takeWhile (fun b => b != 10) ++ [10])).bytes).length = 64 := by
  refine ⟨Connection.auth_written Sum256 c c1 body secret hfree hread, ?_⟩
  rw [hexLower_length, (Sum256 _).size]

/-- C1: once the greeting was read as a response `g`, `auth` returns nil if
and only if either no secret was passed and `g` has status 200, or a secret
was passed, `g` has status 107 and the `auth` command was answered by a
response of status 200. When no secret was passed or the status is not 107,
`auth` returns without anything handed to the socket; with a secret and
status 107, on a free mutex, the `auth` line is the one thing written. -/
theorem auth_outcome (Sum256 : GoString → Digest) (c c1 : Connection) (g : Response)
    (secret : Option GoString) (hread : c.read = (c1, .ret (.ok g))) :
    ((c.auth Sum256 secret).2 = .ret none ↔
      (secret = none ∧ g.Status = 200) ∨
      (∃ sec r, secret = some sec ∧ g.Status = 107 ∧
        (c1.Cmd (ascii "auth")
          [hexLower (Sum256 (challengeOf g.Body ++ [10] ++ sec ++ challengeOf g.Body ++
            [10])).bytes]).2 = .ret (.ok r) ∧ r.Status = 200)) ∧
    ((secret = none ∨ g.Status ≠ 107) →
      (c.auth Sum256 secret).1 = c1 ∧ (c.auth Sum256 secret).1.written = c.written ∧
      ∃ e, (c.auth Sum256 secret).2 = .ret e) ∧
    (∀ sec, secret = some sec → g.Status = 107 → c.locked = false →
      (c.auth Sum256 secret).1.written = c.written ++ [authLine Sum256 g.Body sec]) := by
  have hf := Connection.read_frame c
  rw [hread] at hf
  simp only [] at hf
  obtain ⟨st, body⟩ := g
  cases secret with
  | none =>
    have h : c.auth Sum256 none = (c1, if st = 200 then .ret none else .ret (some
        (GoError.errorf "secret was not passed, but status %d was returned (expected CLIS_OK)"
          [st]))) := by
      unfold Connection.auth
      rw [hread]
      simp only [Response.IsSuccess, CLIS_OK]
      by_cases hs : st = 200 <;> simp [hs]
    rw [h]
    refine ⟨?_, ?_, ?_⟩
    · by_cases hs : st = 200 <;> simp [hs]
    · intro _
      refine ⟨rfl, hf.2.2.2.1, ?_⟩
      by_cases hs : st = 200 <;> simp [hs]
    · intro sec hsec
      cases hsec
  | some sec =>
    by_cases hs : st = 107
    · subst hs
      have h107 := Connection.auth_107 Sum256 c c1 body sec hread
      refine ⟨?_, ?_, ?_⟩
      · rw [h107.2]
        simp
      · intro h
        simp at h
      · intro sec2 hsec _ hfree
        cases hsec
        exact Connection.auth_written Sum256 c c1 body sec hfree hread
    · have h : c.auth Sum256 (some sec) = (c1, .ret (some
          (GoError.errorf "secret was passed, but status %d was returned (expected CLIS_AUTH)"
            [st]))) := by
        unfold Connection.auth
        rw [hread]
        simp [CLIS_AUTH, hs]
      rw [h]
      refine ⟨?_, ?_, ?_⟩
      · simp [hs]
      · intro _
        exact ⟨rfl, hf.2.2.2.1, _, rfl⟩
      · intro sec2 _ h107
        exact absurd h107 hs

/-- The handshake on the greeting `107 00000004\nabcd\n` with the secret of the tests. -/
theorem auth_writes_digest_line_witness :
    ((Connection.fresh [ascii "107 00000004\nabcd\n200 00000002\nhi\n"]).auth stubSum256
        (some (ascii "opensesame\n"))).1.written =
      (Connection.fresh [ascii "107 00000004\nabcd\n200 00000002\nhi\n"]).written ++
        [ascii "auth " ++
          hexLower (stubSum256 ((ascii "abcd").takeWhile (fun b => b != 10) ++ [10] ++
            ascii "opensesame\n" ++ (ascii "abcd").takeWhile (fun b => b != 10) ++ [10])).bytes ++
          [10]] ∧
    (hexLower (stubSum256 ((ascii "abcd").takeWhile (fun b => b != 10) ++ [10] ++
      ascii "opensesame\n" ++ (ascii "abcd").takeWhile (fun b => b != 10) ++ [10])).bytes).length
      = 64 :=
  auth_writes_digest_line stubSum256
    (Connection.fresh [ascii "107 00000004\nabcd\n200 00000002\nhi\n"])
    ((Connection.fresh [ascii "107 00000004\nabcd\n200 00000002\nhi\n"]).read).1
    (ascii "abcd") (ascii "opensesame\n") rfl (by decide)

/-- The handshake without a secret on the greeting `200 00000002\nhi\n`. -/
theorem auth_outcome_witness :
    ((Connection.fresh [ascii "200 00000002\nhi\n"]).auth stubSum256 none).2 = .ret none ↔
      ((none : Option GoString) = none ∧ (⟨200, ascii "hi"⟩ : Response).Status = 200) ∨
      (∃ sec r, (none : Option GoString) = some sec ∧ (⟨200, ascii "hi"⟩ : Response).Status = 107 ∧
        (((Connection.fresh [ascii "200 00000002\nhi\n"]).read).1.Cmd (ascii "auth")
          [hexLower (stubSum256 (challengeOf (ascii "hi") ++ [10] ++ sec ++ challengeOf (ascii "hi") ++
            [10])).bytes]).2 = .ret (.ok r) ∧ r.Status = 200) :=
  (auth_outcome stubSum256 (Connection.fresh [ascii "200 00000002\nhi\n"])
    ((Connection.fresh [ascii "200 00000002\nhi\n"]).read).1 ⟨200, ascii "hi"⟩ none
    (by decide)).1

theorem Connection.write_frame (c : Connection) (command : GoString) (args : List GoString) :
    (c.write command args).1.stop = c.stop ∧
    (c.write command args).1.endpoint = c.endpoint := by
  unfold Connection.write
  cases hc : c.conn with
  | none => simp [hc]
  | some sock =>
    simp only [Connection.endpoint, hc, Sock.Write]
    split <;> simp

theorem Connection.Cmd_frame (c : Connection) (command : GoString) (args : List GoString) :
    (c.Cmd command args).1.stop = c.stop ∧
    (c.Cmd command args).1.endpoint = c.endpoint := by
  have hw := Connection.write_frame c.Lock command args
  unfold Connection.Cmd
  by_cases hl : c.locked = true
  · simp [hl]
  · simp only [hl, if_false]
    rcases h : c.Lock.write command args with ⟨c2, o⟩
    rw [h] at hw
    have hs : c2.stop = c.stop := hw.1
    have he : c2.endpoint = c.endpoint := hw.2
    cases o with
    | ret x =>
      cases x with
      | some e => exact ⟨hs, he⟩
      | none => exact ⟨(Connection.read_frame c2).2.1.trans hs, (Connection.read_endpoint c2).trans he⟩
    | panic m => exact ⟨hs, he⟩
    | blocked => exact ⟨hs, he⟩

theorem Connection.auth_frame (Sum256 : GoString → Digest) (c : Connection)
    (secret : Option GoString) :
    (c.auth Sum256 secret).1.stop = c.stop ∧
    (c.auth Sum256 secret).1.endpoint = c.endpoint := by
  have hf := Connection.read_frame c
  have he := Connection.read_endpoint c
  unfold Connection.auth
  rcases h : c.read with ⟨c1, o⟩
  rw [h] at hf he
  have hs1 : c1.stop = c.stop := hf.2.1
  have he1 : c1.endpoint = c.endpoint := he
  cases o with
  | panic m => exact ⟨hs1, he1⟩
  | blocked => exact ⟨hs1, he1⟩
  | ret x =>
    cases x with
    | error e => exact ⟨hs1, he1⟩
    | ok resp =>
      cases secret with
      | none =>
        simp only []
        split <;> exact ⟨hs1, he1⟩
      | some sec =>
        simp only []
        split
        · rcases hsp : Split resp.Body 10 with _ | ⟨challenge, rest⟩
          · exact ⟨hs1, he1⟩
          · simp only []
            have hc := Connection.Cmd_frame c1 (ascii "auth")
              [EncodeToString
                (Sum256 (challenge ++ ascii "\n" ++ sec ++ challenge ++ ascii "\n")).bytes]
            rcases h2 : c1.Cmd (ascii "auth")
              [EncodeToString
                (Sum256 (challenge ++ ascii "\n" ++ sec ++ challenge ++ ascii "\n")).bytes]
              with ⟨c2, o2⟩
            rw [h2] at hc
            have hs2 : c2.stop = c.stop := hc.1.trans hs1
            have he2 : c2.endpoint = c.endpoint := hc.2.trans he1
            cases o2 with
            | panic m => exact ⟨hs2, he2⟩
            | blocked => exact ⟨hs2, he2⟩
            | ret y =>
              cases y with
              | error e => exact ⟨hs2, he2⟩
              | ok r2 =>
                simp only []
                split <;> exact ⟨hs2, he2⟩
        · exact ⟨hs1, he1⟩

/-- C7: when the dial succeeded and the handshake returned (nil or any
error), `NewConnection` returns a connection together with exactly what the
handshake returned; the connection holds the dialed socket, has no keepalive
installed, and `Close` on it returns exactly what closing that socket
returns. A nil connection is returned only with the error of a failed dial. -/
theorem NewConnection_returns_connection (Sum256 : GoString → Digest) :
    (∀ (sock : Sock) (secret : Option GoString) (c : Connection) (e : Option GoError),
      Connection.auth Sum256 ⟨false, some sock, none, [], []⟩ secret = (c, .ret e) →
      NewConnection Sum256 (.ok sock) secret = .ret (some c, e) ∧
      c.stop = none ∧
      ∃ sock1, c.conn = some sock1 ∧ sock1.rderr = sock.rderr ∧ sock1.closed = sock.closed ∧
        sock1.closeErr = sock.closeErr ∧
        c.Close = ({ c with conn := some sock1.Close.1 }, .ret sock1.Close.2)) ∧
    (∀ (dial : Except GoError Sock) (secret : Option GoString) (e : Option GoError),
      NewConnection Sum256 dial secret = .ret (none, e) →
      ∃ err, dial = .error err ∧ e = some err) := by
  constructor
  · intro sock secret c e h
    have hf := Connection.auth_frame Sum256 ⟨false, some sock, none, [], []⟩ secret
    rw [h] at hf
    simp only [] at hf
    obtain ⟨sock1, hs1, hx⟩ := Connection.endpoint_some c (sock.rderr, sock.closed, sock.closeErr)
      (by rw [hf.2]; rfl)
    simp only [Prod.mk.injEq] at hx
    refine ⟨?_, hf.1, sock1, hs1, hx.1.symm, hx.2.1.symm, hx.2.2.symm, ?_⟩
    · unfold NewConnection
      simp only [h]
    · unfold Connection.Close
      simp only [hf.1, hs1]
  · intro dial secret e h
    unfold NewConnection at h
    cases dial with
    | error err =>
      simp only [Outcome.ret.injEq, Prod.mk.injEq, true_and] at h
      exact ⟨err, rfl, h.symm⟩
    | ok sock =>
      simp only at h
      split at h <;> simp at h

/-- A connection without a secret to a server that asks for one: the
connection is returned with the error. -/
theorem NewConnection_returns_connection_witness :
    NewConnection stubSum256 (.ok (Sock.fresh [ascii "107 00000004\nabcd\n200 00000002\nhi\n"]))
      none = .ret (some ((Connection.fresh
        [ascii "107 00000004\nabcd\n200 00000002\nhi\n"]).auth stubSum256 none).1,
        some (.errorf "secret was not passed, but status %d was returned (expected CLIS_OK)"
          [107])) :=
  ((NewConnection_returns_connection stubSum256).1
    (Sock.fresh [ascii "107 00000004\nabcd\n200 00000002\nhi\n"]) none _ _ (by decide)).1

/-! ## Scanning a header of the exact form -/

theorem decodeRunes_ascii (e : Bool) (pre rest : List Nat) (h : ∀ b ∈ pre, b < 128) :
    decodeRunes e 0 (pre ++ rest) = pre.map asciiTok ++ decodeRunes e 0 rest := by
  induction pre with
  | nil => rfl
  | cons b tl ih =>
    have hb : b < 128 := h b (List.mem_cons_self _ _)
    have ih2 := ih (fun x hx => h x (List.mem_cons_of_mem _ hx))
    simp only [List.cons_append, decodeRunes, readRuneAt, RuneSelf, hb, if_true, List.map_cons,
      asciiTok]
    simpa using ih2

theorem digit_facts (d : Nat) (h1 : 48 ≤ d) (h2 : d ≤ 57) :
    isSpace d = false ∧ d ≠ 13 ∧ d ≠ 10 ∧ sign.contains d = false ∧
    decimalDigits.contains d = true := by
  interval_cases d <;> decide

theorem ss.took_unread (s : ss) (t : RuneTok) :
    (s.took t).UnreadRune t = { s with atEOF := false, hw := max s.hw (s.pos + t.pulled) } := by
  simp [ss.took, ss.UnreadRune]

theorem ss.getRune_cons (s : ss) (t : RuneTok) (rest : List RuneTok) (h1 : s.atEOF = false)
    (h2 : s.count < s.argLimit) : s.getRune (t :: rest) = .ok (some t) (s.took t) rest := by
  unfold ss.getRune
  simp [h1, Nat.not_le.mpr h2]

theorem ss.getRune_limit (s : ss) (rs : List RuneTok) (h2 : s.argLimit ≤ s.count) :
    s.getRune rs = .ok none s rs := by
  unfold ss.getRune
  simp [h2]

theorem ss.SkipSpace_nonspace (s : ss) (t : RuneTok) (rest : List RuneTok) (h1 : s.atEOF = false)
    (h2 : s.count < s.argLimit) (h3 : isSpace t.r = false) :
    s.SkipSpace (t :: rest) = .ok () { s with hw := max s.hw (s.pos + t.pulled) } (t :: rest) := by
  have h13 : t.r ≠ 13 := by intro h; rw [h] at h3; simp [isSpace] at h3
  have h10 : t.r ≠ 10 := by intro h; rw [h] at h3; simp [isSpace] at h3
  unfold ss.SkipSpace
  rw [ss.getRune_cons s t rest h1 h2]
  simp only [h13, if_false, h10, h3, Bool.not_false, if_true, ss.took_unread]
  congr 1
  cases s
  simp_all

theorem ss.notEOF_cons (s : ss) (t : RuneTok) (rest : List RuneTok) (h1 : s.atEOF = false)
    (h2 : s.count < s.argLimit) :
    s.notEOF (t :: rest) = .ok () { s with hw := max s.hw (s.pos + t.pulled) } (t :: rest) := by
  unfold ss.notEOF
  rw [ss.getRune_cons s t rest h1 h2]
  simp only [ss.took_unread]
  congr 1
  cases s
  simp_all

theorem ss.accept_no (s : ss) (ok : List Nat) (t : RuneTok) (rest : List RuneTok)
    (h1 : s.atEOF = false) (h2 : s.count < s.argLimit) (h3 : ok.contains t.r = false) :
    s.accept ok (t :: rest) =
      .ok false { s with hw := max s.hw (s.pos + t.pulled) } (t :: rest) := by
  unfold ss.accept ss.consume
  rw [ss.getRune_cons s t rest h1 h2]
  simp only [h3, Bool.false_eq_true, if_false, if_true, ss.took_unread]
  congr 1
  cases s
  simp_all

theorem ss.accept_yes (s : ss) (ok : List Nat) (t : RuneTok) (rest : List RuneTok)
    (h1 : s.atEOF = false) (h2 : s.count < s.argLimit) (h3 : ok.contains t.r = true) :
    s.accept ok (t :: rest) = .ok true { s.took t with buf := s.buf ++ [t.r] } rest := by
  unfold ss.accept ss.consume
  rw [ss.getRune_cons s t rest h1 h2]
  simp only [h3, if_true, ss.took]

theorem ss.accept_limit (s : ss) (ok : List Nat) (rs : List RuneTok)
    (h2 : s.argLimit ≤ s.count) : s.accept ok rs = .ok false s rs := by
  unfold ss.accept ss.consume
  rw [ss.getRune_limit s rs h2]

theorem ss.acceptAll_limit (s : ss) (ok : List Nat) (rs : List RuneTok)
    (h2 : s.argLimit ≤ s.count) : s.acceptAll ok rs = .ok () s rs := by
  cases rs with
  | nil => unfold ss.acceptAll; rw [ss.accept_limit s ok [] h2]
  | cons t rest => unfold ss.acceptAll; rw [ss.accept_limit s ok _ h2]

/-- The digit loop on digits that fill the width exactly. -/
theorem ss.acceptAll_digits (ds : List Nat) :
    ∀ (s : ss) (rest : List RuneTok), (∀ d ∈ ds, 48 ≤ d ∧ d ≤ 57) → s.atEOF = false →
      s.argLimit = s.count + ds.length → s.pos ≤ s.hw →
      s.acceptAll decimalDigits (ds.map asciiTok ++ rest) =
        .ok () { s with count := s.count + ds.length, pos := s.pos + ds.length,
                        hw := max s.hw (s.pos + ds.length), buf := s.buf ++ ds } rest := by
  induction ds with
  | nil =>
    intro s rest _ _ h3 h4
    rw [List.map_nil, List.nil_append, ss.acceptAll_limit s _ _ (by simp at h3; omega)]
    congr 1
    cases s
    simp at h4 ⊢
    omega
  | cons d ds ih =>
    intro s rest hd h1 h3 h4
    have hdf := digit_facts d (hd d (List.mem_cons_self _ _)).1 (hd d (List.mem_cons_self _ _)).2
    simp only [List.map_cons, List.cons_append]
    unfold ss.acceptAll
    rw [ss.accept_yes s _ (asciiTok d) _ h1 (by simp at h3; omega) hdf.2.2.2.2]
    simp only []
    rw [ih _ rest (fun x hx => hd x (List.mem_cons_of_mem _ hx)) (by simp [ss.took, h1])
      (by simp [ss.took, h3]; omega) (by simp [ss.took, asciiTok])]
    congr 1
    cases s
    simp [ss.took, asciiTok] at h4 ⊢
    omega

theorem zeroPad_digits (w : Nat) : ∀ n, ∀ d ∈ zeroPad w n, 48 ≤ d ∧ d ≤ 57 := by
  induction w with
  | zero => intro n d hd; simp [zeroPad] at hd
  | succ w ih =>
    intro n d hd
    simp only [zeroPad, List.mem_append, List.mem_singleton] at hd
    rcases hd with hd | hd
    · exact ih _ d hd
    · omega

theorem zeroPad_length (w : Nat) : ∀ n, (zeroPad w n).length = w := by
  induction w with
  | zero => intro n; rfl
  | succ w ih => intro n; simp [zeroPad, ih]

theorem ParseUintLoop_append (l : List Nat) : ∀ (c n : Nat),
    ParseUintLoop (l ++ [c]) n =
      match ParseUintLoop l n with
      | .ok v => ParseUintLoop [c] v
      | .error e => .error e := by
  induction l with
  | nil => intro c n; rfl
  | cons a l ih =>
    intro c n
    simp only [List.cons_append, ParseUintLoop]
    split
    · split
      · rfl
      · split
        · rfl
        · exact ih _ _
    · rfl

theorem ParseUintLoop_zeroPad (w : Nat) : ∀ n, w ≤ 18 →
    ParseUintLoop (zeroPad w n) 0 = .ok (n % 10 ^ w) := by
  induction w with
  | zero => intro n _; simp [zeroPad, ParseUintLoop, Nat.mod_one]
  | succ w ih =>
    intro n hw
    have hpow : 10 ^ w ≤ 10 ^ 17 := Nat.pow_le_pow_right (by decide) (by omega)
    have hlt : (n / 10) % 10 ^ w < 10 ^ w := Nat.mod_lt _ (Nat.pos_pow_of_pos _ (by decide))
    have hmod : n % 10 ^ (w + 1) = (n / 10 % 10 ^ w) * 10 + n % 10 := by
      rw [pow_succ, Nat.mul_comm (10 ^ w) 10, Nat.mod_mul]
      omega
    simp only [zeroPad]
    rw [ParseUintLoop_append, ih (n / 10) (by omega)]
    simp only [ParseUintLoop]
    have h1 : (48 ≤ 48 + n % 10 && 48 + n % 10 ≤ 57) = true := by
      simp only [Bool.and_eq_true, decide_eq_true_eq]; omega
    have h2 : ¬ ((n / 10) % 10 ^ w ≥ (2 ^ 64 - 1) / 10 + 1) := by
      norm_num at hpow ⊢; omega
    have h3 : ¬ ((n / 10) % 10 ^ w * 10 + (48 + n % 10 - 48) > 2 ^ 64 - 1) := by
      norm_num at hpow ⊢; omega
    simp only [h1, if_true, h2, if_false, h3, hmod]
    congr 1
    omega

theorem ParseInt_zeroPad (w n : Nat) (h1 : 1 ≤ w) (h2 : w ≤ 18) (h3 : n < 10 ^ w) :
    ParseInt (zeroPad w n) = .ok (n : Int) := by
  have hu := ParseUintLoop_zeroPad w n h2
  rw [Nat.mod_eq_of_lt h3] at hu
  have hd := zeroPad_digits w n
  have hl := zeroPad_length w n
  have hpow : 10 ^ w ≤ 10 ^ 18 := Nat.pow_le_pow_right (by decide) h2
  cases hz : zeroPad w n with
  | nil => rw [hz] at hl; simp at hl; omega
  | cons c cs =>
    rw [hz] at hu hd
    have hc := hd c (List.mem_cons_self _ _)
    have hc1 : (c = 43 || c = 45) = false := by simp; omega
    have hc2 : ¬ (c = 45) := by omega
    have hc3 : ¬ (c = 43) := by omega
    have : ¬ (n ≥ 2 ^ 63) := by norm_num at hpow ⊢; omega
    simp only [ParseInt, ParseUint, hc2, hc3]
    simp only [hu, if_false, Bool.or_self, decide_False, Bool.false_eq_true]
    simp
    norm_num at hpow; omega

/-- The verb `%d` on digits that fill the width exactly. -/
theorem ss.scanInt_digits (s : ss) (d : Nat) (ds : List Nat) (rest : List RuneTok) (i : Int)
    (hd : ∀ x ∈ d :: ds, 48 ≤ x ∧ x ≤ 57) (h1 : s.atEOF = false)
    (h3 : s.argLimit = s.count + (ds.length + 1)) (h4 : s.pos ≤ s.hw) (hb : s.buf = [])
    (hp : ParseInt (d :: ds) = .ok i) :
    s.scanInt ((d :: ds).map asciiTok ++ rest) =
      .ok i { s with count := s.count + (ds.length + 1), pos := s.pos + (ds.length + 1),
                     hw := max s.hw (s.pos + (ds.length + 1)), buf := d :: ds } rest := by
  have hdf := digit_facts d (hd d (List.mem_cons_self _ _)).1 (hd d (List.mem_cons_self _ _)).2
  simp only [List.map_cons, List.cons_append]
  unfold ss.scanInt
  rw [ss.SkipSpace_nonspace s (asciiTok d) _ h1 (by omega) hdf.1]
  simp only []
  rw [ss.notEOF_cons _ (asciiTok d) _ (by simpa using h1) (by simp; omega)]
  simp only []
  rw [ss.accept_no _ sign (asciiTok d) _ (by simpa using h1) (by simp; omega) hdf.2.2.2.1]
  simp only []
  unfold ss.scanNumber
  rw [ss.notEOF_cons _ (asciiTok d) _ (by simpa using h1) (by simp; omega)]
  simp only []
  rw [ss.accept_yes _ decimalDigits (asciiTok d) _ (by simpa using h1) (by simp; omega) hdf.2.2.2.2]
  simp only []
  rw [ss.acceptAll_digits ds _ rest (fun x hx => hd x (List.mem_cons_of_mem _ hx))
    (by simp [ss.took, h1]) (by simp [ss.took, h3]; omega) (by simp [ss.took, asciiTok])]
  simp only [ss.took, asciiTok, hb, List.nil_append, List.singleton_append, hp]
  congr 1
  cases s
  simp at h4 ⊢
  omega

theorem ss.scanInt_zeroPad (s : ss) (w n : Nat) (rest : List RuneTok)
    (hw1 : 1 ≤ w) (hw2 : w ≤ 18) (hn : n < 10 ^ w) (h1 : s.atEOF = false)
    (h3 : s.argLimit = s.count + w) (h4 : s.pos ≤ s.hw) (hb : s.buf = []) :
    s.scanInt ((zeroPad w n).map asciiTok ++ rest) =
      .ok (n : Int)
        { s with count := s.count + w, pos := s.pos + w,
                 hw := max s.hw (s.pos + w), buf := zeroPad w n } rest := by
  have hl := zeroPad_length w n
  have hp := ParseInt_zeroPad w n hw1 hw2 hn
  have hd := zeroPad_digits w n
  cases hz : zeroPad w n with
  | nil => rw [hz] at hl; simp at hl; omega
  | cons c cs =>
    rw [hz] at hl hp hd
    simp only [List.length_cons] at hl
    rw [ss.scanInt_digits s c cs rest n hd h1 (by omega) h4 hb hp, hl]

theorem ss.skipBlanks_stop (s : ss) (c : RuneTok) (rs : List RuneTok)
    (h : (isSpace c.r && c.r != 10) = false) :
    s.skipBlanks (some c) rs = .ok (some c) s rs := by
  cases rs with
  | nil => simp [ss.skipBlanks, h]
  | cons t rest => simp [ss.skipBlanks, h]

/-- The piece `" "` of the format on one space followed by a rune that is
not a space. -/
theorem ss.advanceSpace_one (s : ss) (t : RuneTok) (rest : List RuneTok) (h1 : s.atEOF = false)
    (h2 : s.count + 1 < s.argLimit) (h3 : isSpace t.r = false) :
    s.advanceSpace (asciiTok 32 :: t :: rest) =
      .ok () { s with count := s.count + 1, pos := s.pos + 1,
                      hw := max (max s.hw (s.pos + 1)) (s.pos + 1 + t.pulled) } (t :: rest) := by
  unfold ss.advanceSpace
  rw [ss.getRune_cons s _ _ h1 (by omega)]
  have hsp : isSpace (asciiTok 32).r = true := by decide
  have hnl : ((asciiTok 32).r == 10) = false := by decide
  simp only [hsp, hnl, Bool.not_true, Bool.false_eq_true, if_false]
  unfold ss.skipBlanks
  have hc : (isSpace (asciiTok 32).r && (asciiTok 32).r != 10) = true := by decide
  simp only [hc, if_true]
  rw [ss.getRune_cons _ t rest (by simpa [ss.took] using h1) (by simp [ss.took]; omega)]
  simp only []
  rw [ss.skipBlanks_stop _ t rest (by simp [h3])]
  simp only [ss.took_unread]
  congr 1
  cases s
  simp [ss.took, asciiTok] at h1 ⊢
  exact h1

/-- The piece `"\n"` of the format on a newline. -/
theorem ss.advanceNewline_one (s : ss) (rest : List RuneTok) (h1 : s.atEOF = false)
    (h2 : s.count < s.argLimit) :
    s.advanceNewline (asciiTok 10 :: rest) = .ok () (s.took (asciiTok 10)) rest := by
  unfold ss.advanceNewline
  rw [ss.getRune_cons s _ _ h1 h2]
  simp only []
  rw [ss.skipBlanks_stop _ (asciiTok 10) rest (by decide)]
  simp [asciiTok]

theorem ss.SkipSpace_zeroPad (s : ss) (w n : Nat) (rest : List RuneTok) (hw : 1 ≤ w)
    (h1 : s.atEOF = false) (h2 : s.count < s.argLimit) :
    s.SkipSpace ((zeroPad w n).map asciiTok ++ rest) =
      .ok () { s with hw := max s.hw (s.pos + 1) } ((zeroPad w n).map asciiTok ++ rest) := by
  have hl := zeroPad_length w n
  have hd := zeroPad_digits w n
  cases hz : zeroPad w n with
  | nil => rw [hz] at hl; simp at hl; omega
  | cons c cs =>
    rw [hz] at hd
    have hc := hd c (List.mem_cons_self _ _)
    simp only [List.map_cons, List.cons_append]
    rw [ss.SkipSpace_nonspace s (asciiTok c) _ h1 h2 (digit_facts c hc.1 hc.2).1]
    rfl

theorem doScanf_header (rderr : GoError) (avail status length : Nat) (rest : List RuneTok)
    (hs : status < 1000) (hl : length < 100000000) :
    doScanf ⟨rderr, avail, 0, 0, 0, false, hugeWid, []⟩
      ((zeroPad 3 status).map asciiTok ++ asciiTok 32 ::
        ((zeroPad 8 length).map asciiTok ++ asciiTok 10 :: rest)) =
      ⟨2, none, status, length, 13⟩ := by
  have hd8 := zeroPad_digits 8 length
  have hl8 := zeroPad_length 8 length
  unfold doScanf
  rw [ss.SkipSpace_zeroPad _ 3 status _ (by decide) rfl (by simp [hugeWid])]
  simp only []
  rw [ss.scanInt_zeroPad _ 3 status _ (by decide) (by decide) (by simpa using hs) rfl
    (by simp [hugeWid]) (by simp) rfl]
  simp only []
  cases hz : zeroPad 8 length with
  | nil => rw [hz] at hl8; simp at hl8
  | cons c cs =>
    have hc := hd8 c (by rw [hz]; exact List.mem_cons_self _ _)
    simp only [List.map_cons, List.cons_append]
    rw [ss.advanceSpace_one _ (asciiTok c) _ rfl (by simp [hugeWid])
      (digit_facts c hc.1 hc.2).1]
    simp only []
    rw [show asciiTok c :: (List.map asciiTok cs ++ asciiTok 10 :: rest) =
      (zeroPad 8 length).map asciiTok ++ asciiTok 10 :: rest by rw [hz]; rfl]
    rw [ss.SkipSpace_zeroPad _ 8 length _ (by decide) rfl (by simp [hugeWid])]
    simp only []
    rw [ss.scanInt_zeroPad _ 8 length _ (by decide) (by decide) (by simpa using hl) rfl
      (by simp [hugeWid]) (by simp) rfl]
    simp only []
    rw [ss.advanceNewline_one _ rest rfl (by simp [hugeWid])]
    simp [ss.took, asciiTok]

theorem header_ascii (status length : Nat) : ∀ b ∈ header status length, b < 128 := by
  intro b hb
  simp only [header, List.mem_append, List.mem_singleton] at hb
  rcases hb with ((hb | hb) | hb) | hb
  · have := zeroPad_digits 3 status b hb; omega
  · omega
  · have := zeroPad_digits 8 length b hb; omega
  · omega

theorem header_length (status length : Nat) : (header status length).length = 13 := by
  simp [header, zeroPad_length]

/-- The scan of the header of a frame: two operands, no error, the status and
the length, and exactly the 13 bytes of the header fetched. -/
theorem Fscanf_header (rderr : GoError) (status length : Nat) (rest : List Nat)
    (hs : status < 1000) (hl : length < 100000000) :
    Fscanf (header status length ++ rest) rderr = ⟨2, none, status, length, 13⟩ := by
  unfold Fscanf
  rw [decodeRunes_ascii _ _ _ (header_ascii status length)]
  have : ∀ R : List RuneTok, (header status length).map asciiTok ++ R =
      (zeroPad 3 status).map asciiTok ++ asciiTok 32 ::
        ((zeroPad 8 length).map asciiTok ++ asciiTok 10 :: R) := by
    intro R
    simp [header]
  rw [this]
  exact doScanf_header rderr _ status length _ hs hl

theorem dropBytes_header (hchunks : List (List Nat)) :
    ∀ (h2 t : List Nat) (post : List (List Nat)), t ≠ [] →
      dropBytes (hchunks.flatten.length + h2.length) (hchunks ++ (h2 ++ t) :: post) = t :: post := by
  induction hchunks with
  | nil =>
    intro h2 t post ht
    have : h2.length < (h2 ++ t).length := by
      have := List.length_pos.mpr ht
      simp; omega
    have hpos : 0 < t.length := List.length_pos.mpr ht
    simp only [List.flatten_nil, List.length_nil, Nat.zero_add, List.nil_append, dropBytes, this,
      if_true, List.drop_left]
  | cons c cs ih =>
    intro h2 t post ht
    simp only [List.flatten_cons, List.length_append, List.cons_append, dropBytes]
    have : ¬ (c.length + cs.flatten.length + h2.length < c.length) := by omega
    simp only [this, if_false]
    rw [show c.length + cs.flatten.length + h2.length - c.length =
      cs.flatten.length + h2.length by omega]
    exact ih h2 t post ht

theorem readChunk_nonempty (n : Nat) (t : List Nat) (post : List (List Nat)) (ht : t ≠ []) :
    readChunk n (t :: post) = some (t.take n, t.drop n :: post) := by
  cases t with
  | nil => exact absurd rfl ht
  | cons b bs => rfl

/-- C4: for every status up to 999 and every body of at most 99999999 bytes,
when the socket is open and holds the header (in any chunks) and then, in one
chunk, the body and its newline, `read` returns the response with that status
and that body, and leaves on the socket exactly what followed the frame. -/
theorem read_roundtrip (c : Connection) (sock : Sock) (status : Nat) (body : GoString)
    (hchunks : List (List Nat)) (h2 r1 : List Nat) (post : List (List Nat))
    (hconn : c.conn = some sock) (hopen : sock.closed = false)
    (hstatus : status ≤ 999) (hbody : body.length ≤ 99999999)
    (hinput : sock.input = hchunks ++ (h2 ++ (body ++ 10 :: r1)) :: post)
    (hheader : hchunks.flatten ++ h2 = header status body.length) :
    c.read =
      ({ c with conn := some { sock with input := r1 :: post },
                trace := c.trace ++ [Event.read] },
       .ret (.ok ⟨status, body⟩)) := by
  have hflat : sock.input.flatten =
      header status body.length ++ (body ++ 10 :: r1 ++ post.flatten) := by
    rw [hinput, ← hheader]
    simp
  have hscan := Fscanf_header sock.rderr status body.length (body ++ 10 :: r1 ++ post.flatten)
    (by omega) (by omega)
  have hlen : hchunks.flatten.length + h2.length = 13 := by
    rw [← List.length_append, hheader, header_length]
  have hdrop : dropBytes 13 sock.input = (body ++ 10 :: r1) :: post := by
    rw [hinput, ← hlen]
    exact dropBytes_header hchunks h2 _ post (by simp)
  have hrd : Sock.Read { sock with input := (body ++ 10 :: r1) :: post } (body.length + 1) =
      ({ sock with input := r1 :: post }, .ok (body ++ [10])) := by
    unfold Sock.Read
    simp only [hopen, Bool.false_eq_true, if_false, Nat.succ_ne_zero]
    rw [readChunk_nonempty _ _ _ (by simp)]
    simp [List.take_append_eq_append_take, List.drop_append_eq_append_drop]
  unfold Connection.read
  simp only [hconn, Sock.reader, hopen, Bool.false_eq_true, if_false, hflat, hscan, hdrop]
  have h1 : ¬ ((body.length : Int) + 1 < 0) := by omega
  have h2 : ((body.length : Int) + 1).toNat = body.length + 1 := by omega
  simp only [hopen] at hrd
  simp only [ne_eq, not_true_eq_false, if_false, h1, h2, hrd]
  simp

/-- A frame whose header arrives in two chunks and whose body starts with a
space and holds newlines. -/
theorem read_roundtrip_witness :
    (Connection.fresh [ascii "200 000", ascii "00006\n \nhi\n\n\n107 "]).read =
      ({ Connection.fresh [ascii "200 000", ascii "00006\n \nhi\n\n\n107 "] with
          conn := some { Sock.fresh [ascii "200 000", ascii "00006\n \nhi\n\n\n107 "] with
            input := ascii "107 " :: [] },
          trace := [] ++ [Event.read] },
       .ret (.ok ⟨(200 : Nat), ascii " \nhi\n\n"⟩)) :=
  read_roundtrip (Connection.fresh [ascii "200 000", ascii "00006\n \nhi\n\n\n107 "])
    (Sock.fresh [ascii "200 000", ascii "00006\n \nhi\n\n\n107 "]) 200 (ascii " \nhi\n\n")
    [ascii "200 000"] (ascii "00006\n") (ascii "107 ") [] rfl rfl (by decide) (by decide)
    rfl (by decide)

/-! ## What the rune reader delivers, in terms of bytes -/

theorem first_some (b sz lo hi : Nat) (h : first b = some (sz, lo, hi)) :
    0xC2 ≤ b ∧ b ≤ 0xF4 ∧ 128 ≤ lo ∧ hi ≤ 0xBF ∧
    ((sz = 2 ∧ b ≤ 0xDF) ∨ (sz = 3 ∧ 0xE0 ≤ b ∧ b ≤ 0xEF ∧ (b = 0xE0 → lo = 0xA0)) ∨
      (sz = 4 ∧ 0xF0 ≤ b ∧ (b = 0xF0 → lo = 0x90))) := by
  unfold first at h
  split_ifs at h <;> simp only [Option.some.injEq, Prod.mk.injEq] at h <;>
    (obtain ⟨rfl, rfl, rfl⟩ := h; omega)

theorem DecodeRune_spec (b : Nat) (tl : List Nat) (hb : 128 ≤ b) :
    128 ≤ (DecodeRune (b :: tl)).1 ∧ 1 ≤ (DecodeRune (b :: tl)).2 ∧
    (DecodeRune (b :: tl)).2 ≤ (b :: tl).length ∧
    ∀ x ∈ (b :: tl).take (DecodeRune (b :: tl)).2, 128 ≤ x := by
  have herr : ∀ l : List Nat, 128 ≤ ((RuneError, 1) : Nat × Nat).1 ∧ 1 ≤ ((RuneError, 1) : Nat × Nat).2 ∧
      ((RuneError, 1) : Nat × Nat).2 ≤ (b :: l).length ∧
      ∀ x ∈ (b :: l).take ((RuneError, 1) : Nat × Nat).2, 128 ≤ x := by
    intro l
    refine ⟨by decide, by decide, by simp, ?_⟩
    intro x hx
    simp at hx
    omega
  unfold DecodeRune
  have h1 : ¬ (b < RuneSelf) := by simp [RuneSelf]; omega
  simp only [h1, if_false]
  cases hf : first b with
  | none => exact herr tl
  | some v =>
    obtain ⟨sz, lo, hi⟩ := v
    have hfs := first_some b sz lo hi hf
    simp only []
    cases tl with
    | nil => exact herr []
    | cons b1 tl1 =>
      simp only []
      by_cases hb1 : (b1 < lo || hi < b1) = true
      · simp only [hb1, if_true]; exact herr _
      · simp only [hb1, Bool.false_eq_true, if_false]
        have hb1' : lo ≤ b1 ∧ b1 ≤ hi := by simp at hb1; omega
        by_cases hsz2 : sz ≤ 2
        · simp only [hsz2, if_true]
          refine ⟨?_, by simp, by simp, ?_⟩
          · dsimp only; omega
          · intro x hx; simp at hx; omega
        · simp only [hsz2, if_false]
          cases tl1 with
          | nil => exact herr _
          | cons b2 tl2 =>
            simp only []
            by_cases hb2 : (!isCont b2) = true
            · simp only [hb2, if_true]; exact herr _
            · simp only [hb2, Bool.false_eq_true, if_false]
              have hb2' : 128 ≤ b2 := by simp [isCont] at hb2; omega
              by_cases hsz3 : sz ≤ 3
              · simp only [hsz3, if_true]
                refine ⟨?_, by simp, by simp, ?_⟩
                · dsimp only; omega
                · intro x hx; simp at hx; omega
              · simp only [hsz3, if_false]
                cases tl2 with
                | nil => exact herr _
                | cons b3 tl3 =>
                  simp only []
                  by_cases hb3 : (!isCont b3) = true
                  · simp only [hb3, if_true]; exact herr _
                  · simp only [hb3, Bool.false_eq_true, if_false]
                    have hb3' : 128 ≤ b3 := by simp [isCont] at hb3; omega
                    refine ⟨?_, by simp, by simp, ?_⟩
                    · dsimp only; omega
                    · intro x hx; simp at hx; omega

theorem fillBuf_ge (bs : List Nat) (e : Bool) (k : Nat) :
    ∀ n m, fillBuf bs e k n = some m → n ≤ m := by
  induction k with
  | zero => intro n m h; simp [fillBuf] at h; omega
  | succ k ih =>
    intro n m h
    unfold fillBuf at h
    split_ifs at h
    · simp at h; omega
    · have := ih _ _ h; omega
    · simp at h; omega

theorem readRuneAt_spec (b : Nat) (tl : List Nat) (e : Bool) (t : RuneTok)
    (h : readRuneAt (b :: tl) e = some t) :
    1 ≤ t.size ∧
    ((t.r < 128 ∧ t.r = b ∧ t.size = 1) ∨
      (128 ≤ t.r ∧ 128 ≤ b ∧ ∀ x ∈ tl.take (t.size - 1), 128 ≤ x)) := by
  unfold readRuneAt at h
  by_cases hb : b < RuneSelf
  · simp only [hb, if_true, Option.some.injEq] at h
    subst h
    simp [RuneSelf] at hb
    exact ⟨by simp, Or.inl ⟨hb, rfl, rfl⟩⟩
  · simp only [hb, if_false] at h
    have hb' : 128 ≤ b := by simp [RuneSelf] at hb; omega
    cases hf : fillBuf (b :: tl) e 3 1 with
    | none => simp [hf] at h
    | some n =>
      simp only [hf, Option.some.injEq] at h
      have hn := fillBuf_ge _ _ _ _ _ hf
      obtain ⟨k, rfl⟩ : ∃ k, n = k + 1 := ⟨n - 1, by omega⟩
      subst h
      simp only [List.take_succ_cons]
      have hd := DecodeRune_spec b (tl.take k) hb'
      refine ⟨hd.2.1, Or.inr ⟨hd.1, hb', ?_⟩⟩
      intro x hx
      apply hd.2.2.2 x
      obtain ⟨j, hj⟩ : ∃ j, (DecodeRune (b :: tl.take k)).2 = j + 1 :=
        ⟨(DecodeRune (b :: tl.take k)).2 - 1, by omega⟩
      have hjk : j ≤ k := by
        have := hd.2.2.1
        simp at this
        omega
      rw [hj] at hx ⊢
      simp only [Nat.add_sub_cancel] at hx
      simp only [List.take_succ_cons, List.mem_cons]
      right
      rw [List.take_take, Nat.min_eq_left hjk]
      exact hx

theorem decodeRunes_skip (e : Bool) (k : Nat) :
    ∀ bs, decodeRunes e k bs = decodeRunes e 0 (bs.drop k) := by
  induction k with
  | zero => intro bs; simp
  | succ k ih =>
    intro bs
    cases bs with
    | nil => simp [decodeRunes]
    | cons b tl => simp only [decodeRunes, List.drop_succ_cons]; exact ih tl

/-- The first rune that the reader delivers stands for a prefix of the
bytes that is not empty: the rune itself when it is ASCII, bytes that are not
ASCII otherwise; the other runes are those of the bytes that follow. -/
theorem decodeRunes_uncons (e : Bool) (bs : List Nat) (t : RuneTok) (ts : List RuneTok)
    (h : decodeRunes e 0 bs = t :: ts) :
    ∃ pre post, bs = pre ++ post ∧ decodeRunes e 0 post = ts ∧ pre ≠ [] ∧
      ((t.r < 128 ∧ pre = [t.r]) ∨ (128 ≤ t.r ∧ ∀ x ∈ pre, 128 ≤ x)) := by
  cases bs with
  | nil => simp [decodeRunes] at h
  | cons b tl =>
    unfold decodeRunes at h
    cases hr : readRuneAt (b :: tl) e with
    | none => simp [hr] at h
    | some t' =>
      simp only [hr, List.cons.injEq] at h
      obtain ⟨rfl, hts⟩ := h
      rw [decodeRunes_skip] at hts
      have hs := readRuneAt_spec b tl e t' hr
      refine ⟨b :: tl.take (t'.size - 1), tl.drop (t'.size - 1), by simp, hts, by simp, ?_⟩
      rcases hs.2 with ⟨h1, h2, h3⟩ | ⟨h1, h2, h3⟩
      · left
        refine ⟨h1, ?_⟩
        simp [h2, h3]
      · right
        refine ⟨h1, ?_⟩
        intro x hx
        simp only [List.mem_cons] at hx
        rcases hx with rfl | hx
        · exact h2
        · exact h3 x hx

/-- The spaces of the table `space` that are not ASCII. -/
theorem isSpace_cases (r : Nat) (h : isSpace r = true) (h128 : 128 ≤ r) :
    r = 0x85 ∨ r = 0xA0 ∨ r = 0x1680 ∨ (0x2000 ≤ r ∧ r ≤ 0x200a) ∨ r = 0x2028 ∨ r = 0x2029 ∨
      r = 0x202f ∨ r = 0x205f ∨ r = 0x3000 := by
  simp only [isSpace, Bool.or_eq_true, Bool.and_eq_true, decide_eq_true_eq] at h
  omega

theorem blankChar_two (b b1 : Nat) (hb : 0xC2 ≤ b ∧ b ≤ 0xDF) (h1 : 128 ≤ b1 ∧ b1 ≤ 0xBF)
    (hs : isSpace ((b % 32) * 64 + b1 % 64) = true) : blankChar [b, b1] = true := by
  obtain ⟨p, rfl⟩ : ∃ p, b = 192 + p := ⟨b - 192, by omega⟩
  obtain ⟨q, rfl⟩ : ∃ q, b1 = 128 + q := ⟨b1 - 128, by omega⟩
  have e1 : (192 + p) % 32 = p := by omega
  have e2 : (128 + q) % 64 = q := by omega
  rw [e1, e2] at hs
  simp only [blankChar, Bool.and_eq_true, Bool.or_eq_true, beq_iff_eq]
  rcases isSpace_cases _ hs (by omega) with h | h | h | h | h | h | h | h | h <;> omega

theorem blankChar_three (b b1 b2 : Nat) (hb : 0xE0 ≤ b ∧ b ≤ 0xEF) (h0 : b = 0xE0 → 0xA0 ≤ b1)
    (h1 : 128 ≤ b1 ∧ b1 ≤ 0xBF) (h2 : 128 ≤ b2 ∧ b2 ≤ 0xBF)
    (hs : isSpace ((b % 16) * 4096 + (b1 % 64) * 64 + b2 % 64) = true) :
    blankChar [b, b1, b2] = true := by
  obtain ⟨p, rfl⟩ : ∃ p, b = 224 + p := ⟨b - 224, by omega⟩
  obtain ⟨q, rfl⟩ : ∃ q, b1 = 128 + q := ⟨b1 - 128, by omega⟩
  obtain ⟨r, rfl⟩ : ∃ r, b2 = 128 + r := ⟨b2 - 128, by omega⟩
  have e1 : (224 + p) % 16 = p := by omega
  have e2 : (128 + q) % 64 = q := by omega
  have e3 : (128 + r) % 64 = r := by omega
  rw [e1, e2, e3] at hs
  simp only [blankChar, Bool.and_eq_true, Bool.or_eq_true, beq_iff_eq, decide_eq_true_eq]
  rcases isSpace_cases _ hs (by omega) with h | h | h | h | h | h | h | h | h
  · exfalso; omega
  · exfalso; omega
  · have : p = 1 ∧ q = 26 ∧ r = 0 := by omega
    omega
  · have : p = 2 ∧ q = 0 ∧ r ≤ 10 := by omega
    omega
  · have : p = 2 ∧ q = 0 ∧ r = 40 := by omega
    omega
  · have : p = 2 ∧ q = 0 ∧ r = 41 := by omega
    omega
  · have : p = 2 ∧ q = 0 ∧ r = 47 := by omega
    omega
  · have : p = 2 ∧ q = 1 ∧ r = 31 := by omega
    omega
  · have : p = 3 ∧ q = 0 ∧ r = 0 := by omega
    omega

theorem isSpace_four (b b1 b2 b3 : Nat) (hb : 0xF0 ≤ b ∧ b ≤ 0xF4) (h0 : b = 0xF0 → 0x90 ≤ b1)
    (h1 : 128 ≤ b1 ∧ b1 ≤ 0xBF)
    (hs : isSpace ((b % 8) * 262144 + (b1 % 64) * 4096 + (b2 % 64) * 64 + b3 % 64) = true) :
    False := by
  obtain ⟨p, rfl⟩ : ∃ p, b = 240 + p := ⟨b - 240, by omega⟩
  obtain ⟨q, rfl⟩ : ∃ q, b1 = 128 + q := ⟨b1 - 128, by omega⟩
  have e1 : (240 + p) % 8 = p := by omega
  have e2 : (128 + q) % 64 = q := by omega
  rw [e1, e2] at hs
  have h65 : 65536 ≤ p * 262144 + q * 4096 + (b2 % 64) * 64 + b3 % 64 := by omega
  rcases isSpace_cases _ hs (by omega) with h | h | h | h | h | h | h | h | h <;> omega

/-- A rune that is a space and is not ASCII was decoded from the bytes of a
blank character. -/
theorem DecodeRune_blank (b : Nat) (tl : List Nat) (hb : 128 ≤ b) (d : Nat × Nat)
    (h : DecodeRune (b :: tl) = d) (hs : isSpace d.1 = true) :
    blankChar ((b :: tl).take d.2) = true := by
  have herr : ∀ P : Prop, ((RuneError, 1) : Nat × Nat) = d → P := by
    intro P he
    subst he
    exact absurd hs (by decide)
  unfold DecodeRune at h
  have h1 : ¬ (b < RuneSelf) := by simp [RuneSelf]; omega
  simp only [h1, if_false] at h
  cases hf : first b with
  | none => rw [hf] at h; exact herr _ h
  | some v =>
    obtain ⟨sz, lo, hi⟩ := v
    have hfs := first_some b sz lo hi hf
    rw [hf] at h
    simp only [] at h
    cases tl with
    | nil => exact herr _ h
    | cons b1 tl1 =>
      simp only [] at h
      by_cases hb1 : (b1 < lo || hi < b1) = true
      · simp only [hb1, if_true] at h; exact herr _ h
      · simp only [hb1, Bool.false_eq_true, if_false] at h
        have hb1' : lo ≤ b1 ∧ b1 ≤ hi := by simp at hb1; omega
        have hb1r : 128 ≤ b1 ∧ b1 ≤ 0xBF := by omega
        by_cases hsz2 : sz ≤ 2
        · simp only [hsz2, if_true] at h
          subst h
          exact blankChar_two b b1 (by omega) hb1r hs
        · simp only [hsz2, if_false] at h
          cases tl1 with
          | nil => exact herr _ h
          | cons b2 tl2 =>
            simp only [] at h
            by_cases hb2 : (!isCont b2) = true
            · simp only [hb2, if_true] at h; exact herr _ h
            · simp only [hb2, Bool.false_eq_true, if_false] at h
              have hb2' : 128 ≤ b2 ∧ b2 ≤ 0xBF := by simp [isCont] at hb2; omega
              by_cases hsz3 : sz ≤ 3
              · simp only [hsz3, if_true] at h
                subst h
                exact blankChar_three b b1 b2 (by omega) (by omega) hb1r hb2' hs
              · simp only [hsz3, if_false] at h
                cases tl2 with
                | nil => exact herr _ h
                | cons b3 tl3 =>
                  simp only [] at h
                  by_cases hb3 : (!isCont b3) = true
                  · simp only [hb3, if_true] at h; exact herr _ h
                  · simp only [hb3, Bool.false_eq_true, if_false] at h
                    subst h
                    exact (isSpace_four b b1 b2 b3 (by omega) (by omega) hb1r hs).elim

/-- A rune that is a blank was read from the bytes of one blank character. -/
theorem readRuneAt_blank (b : Nat) (tl : List Nat) (e : Bool) (t : RuneTok)
    (h : readRuneAt (b :: tl) e = some t) (hs : isSpace t.r = true) (h10 : t.r ≠ 10) :
    blankChar (b :: tl.take (t.size - 1)) = true := by
  unfold readRuneAt at h
  by_cases hb : b < RuneSelf
  · simp only [hb, if_true, Option.some.injEq] at h
    subst h
    simp only [RuneSelf] at hb
    simp only [isSpace, Bool.or_eq_true, Bool.and_eq_true, decide_eq_true_eq] at hs
    show blankChar [b] = true
    simp only [blankChar, Bool.or_eq_true, beq_iff_eq]
    simp only [ne_eq] at h10
    omega
  · simp only [hb, if_false] at h
    have hb' : 128 ≤ b := by simp [RuneSelf] at hb; omega
    cases hf : fillBuf (b :: tl) e 3 1 with
    | none => simp [hf] at h
    | some n =>
      simp only [hf, Option.some.injEq] at h
      have hn := fillBuf_ge _ _ _ _ _ hf
      obtain ⟨k, rfl⟩ : ∃ k, n = k + 1 := ⟨n - 1, by omega⟩
      subst h
      simp only [List.take_succ_cons] at hs ⊢
      have hd := DecodeRune_spec b (tl.take k) hb'
      have hbl := DecodeRune_blank b (tl.take k) hb' _ rfl hs
      obtain ⟨j, hj⟩ : ∃ j, (DecodeRune (b :: tl.take k)).2 = j + 1 :=
        ⟨(DecodeRune (b :: tl.take k)).2 - 1, by omega⟩
      have hjk : j ≤ k := by
        have := hd.2.2.1
        simp at this
        omega
      rw [hj] at hbl ⊢
      simp only [Nat.add_sub_cancel]
      simp only [List.take_succ_cons, List.take_take, Nat.min_eq_left hjk] at hbl
      exact hbl

/-- The first rune, when it is a blank, stands for the bytes of one blank
character; the other runes are those of the bytes that follow. -/
theorem decodeRunes_uncons_blank (e : Bool) (bs : List Nat) (t : RuneTok) (ts : List RuneTok)
    (h : decodeRunes e 0 bs = t :: ts) (hs : isSpace t.r = true) (h10 : t.r ≠ 10) :
    ∃ pre post, bs = pre ++ post ∧ decodeRunes e 0 post = ts ∧ blankChar pre = true := by
  cases bs with
  | nil => simp [decodeRunes] at h
  | cons b tl =>
    unfold decodeRunes at h
    cases hr : readRuneAt (b :: tl) e with
    | none => simp [hr] at h
    | some t' =>
      simp only [hr, List.cons.injEq] at h
      obtain ⟨rfl, hts⟩ := h
      rw [decodeRunes_skip] at hts
      exact ⟨b :: tl.take (t'.size - 1), tl.drop (t'.size - 1), by simp, hts,
        readRuneAt_blank b tl e t' hr hs h10⟩

/-- Runes that are blanks stand for as many blank characters. -/
theorem decodeRunes_blanks (e : Bool) (ws : List RuneTok) :
    ∀ (bs : List Nat) (ts : List RuneTok), decodeRunes e 0 bs = ws ++ ts →
      (∀ t ∈ ws, isSpace t.r = true ∧ t.r ≠ 10) →
      ∃ (cs : List (List Nat)) (post : List Nat), bs = cs.flatten ++ post ∧
        decodeRunes e 0 post = ts ∧ cs.all blankChar = true ∧ cs.length = ws.length := by
  induction ws with
  | nil => intro bs ts h _; exact ⟨[], bs, rfl, h, rfl, rfl⟩
  | cons w ws ih =>
    intro bs ts h hw
    have hwb := hw w (List.mem_cons_self _ _)
    obtain ⟨pre, post, hbs, hpost, hbl⟩ :=
      decodeRunes_uncons_blank e bs w (ws ++ ts) h hwb.1 hwb.2
    obtain ⟨cs, post2, hbs2, hpost2, hall2, hlen2⟩ :=
      ih post ts hpost (fun t ht => hw t (List.mem_cons_of_mem _ ht))
    refine ⟨pre :: cs, post2, ?_, hpost2, ?_, ?_⟩
    · rw [hbs, hbs2, List.flatten_cons, List.append_assoc]
    · rw [List.all_cons, hbl, hall2]; rfl
    · simp only [List.length_cons, hlen2]

theorem fillBuf_eof (bs : List Nat) (k : Nat) : ∀ n, fillBuf bs true k n ≠ none := by
  induction k with
  | zero => intro n; simp [fillBuf]
  | succ k ih =>
    intro n
    unfold fillBuf
    simp only [↓reduceIte]
    split_ifs
    · simp
    · exact ih _
    · simp

/-- A reader that ends with `io.EOF` delivers a rune while it holds bytes. -/
theorem decodeRunes_nil (bs : List Nat) (h : decodeRunes true 0 bs = []) : bs = [] := by
  cases bs with
  | nil => rfl
  | cons b tl =>
    exfalso
    unfold decodeRunes at h
    cases hr : readRuneAt (b :: tl) true with
    | some t => simp [hr] at h
    | none =>
      unfold readRuneAt at hr
      by_cases hb : b < RuneSelf
      · simp [hb] at hr
      · simp only [hb, if_false] at hr
        cases hf : fillBuf (b :: tl) true 3 1 with
        | none => exact fillBuf_eof _ _ _ hf
        | some n => simp [hf] at hr

/-- Runes that are ASCII stand for the bytes equal to them. -/
theorem decodeRunes_asciiToks (e : Bool) (tk : List RuneTok) :
    ∀ (bs : List Nat) (ts : List RuneTok), decodeRunes e 0 bs = tk ++ ts →
      (∀ t ∈ tk, t.r < 128) →
      ∃ post, bs = tk.map (fun t => t.r) ++ post ∧ decodeRunes e 0 post = ts := by
  induction tk with
  | nil => intro bs ts h _; exact ⟨bs, rfl, h⟩
  | cons w tk ih =>
    intro bs ts h hw
    obtain ⟨pre, post, hbs, hpost, hne, hcase⟩ := decodeRunes_uncons e bs w (tk ++ ts) h
    obtain ⟨post2, hbs2, hpost2⟩ :=
      ih post ts hpost (fun t ht => hw t (List.mem_cons_of_mem _ ht))
    have hwb := hw w (List.mem_cons_self _ _)
    rcases hcase with ⟨h1, rfl⟩ | ⟨h1, h2⟩
    · exact ⟨post2, by rw [hbs, hbs2]; rfl, hpost2⟩
    · omega

/-! ## What the scan has read when it succeeds -/

theorem Adv.refl (s : ss) (rs : List RuneTok) (hi : Inv s rs) : Adv s rs s rs [] :=
  ⟨rfl, rfl, rfl, ⟨rfl, rfl⟩, Nat.le_refl _, hi⟩

theorem Adv.trans {s s1 s2 : ss} {rs rs1 rs2 ws1 ws2 : List RuneTok}
    (h1 : Adv s rs s1 rs1 ws1) (h2 : Adv s1 rs1 s2 rs2 ws2) :
    Adv s rs s2 rs2 (ws1 ++ ws2) := by
  obtain ⟨a1, a2, a3, a4, a5, _⟩ := h1
  obtain ⟨b1, b2, b3, b4, b5, b6⟩ := h2
  refine ⟨by rw [a1, b1, List.append_assoc], ?_, by rw [b3, a3],
    ⟨b4.1.trans a4.1, b4.2.trans a4.2⟩, Nat.le_trans a5 b5, b6⟩
  rw [b2, a2, List.length_append]
  omega

theorem ss.getRune_ok (s : ss) (rs : List RuneTok) (x : Option RuneTok) (s' : ss)
    (rs' : List RuneTok) (h : s.getRune rs = .ok x s' rs') (hi : Inv s rs) :
    (x = none ∧ Adv s rs s' rs' [] ∧ Stuck s' ∧ s'.buf = s.buf) ∨
    (∃ t, x = some t ∧ rs = t :: rs' ∧ s' = s.took t ∧ s.atEOF = false ∧
      s.count < s.argLimit) := by
  unfold ss.getRune at h
  by_cases hc : (s.atEOF || decide (s.argLimit ≤ s.count)) = true
  · simp only [hc, if_true, Scan.ok.injEq] at h
    obtain ⟨rfl, rfl, rfl⟩ := h
    left
    refine ⟨rfl, Adv.refl _ _ hi, ?_, rfl⟩
    simp only [Bool.or_eq_true, decide_eq_true_eq] at hc
    exact hc
  · simp only [hc, Bool.false_eq_true, if_false] at h
    simp only [Bool.or_eq_true, decide_eq_true_eq, not_or, Bool.not_eq_true] at hc
    cases rs with
    | nil =>
      simp only [] at h
      cases hr : s.rderr with
      | EOF =>
        simp only [hr, Scan.ok.injEq] at h
        obtain ⟨rfl, rfl, rfl⟩ := h
        left
        refine ⟨rfl, ⟨rfl, rfl, rfl, ⟨rfl, hr.symm⟩, ?_, ?_⟩, Or.inl rfl, rfl⟩
        · exact Nat.le_max_left _ _
        · intro _; exact ⟨Nat.le_max_right _ _, rfl, rfl⟩
      | net m => simp [hr] at h
      | scan m => simp [hr] at h
      | num m => simp [hr] at h
      | errorf f a => simp [hr] at h
    | cons t rest =>
      simp only [Scan.ok.injEq] at h
      obtain ⟨rfl, rfl, rfl⟩ := h
      right
      exact ⟨t, rfl, rfl, rfl, hc.1, by omega⟩

theorem ss.getRune_stuck (s : ss) (rs : List RuneTok) (h : Stuck s) :
    s.getRune rs = .ok none s rs := by
  unfold ss.getRune
  have : (s.atEOF || decide (s.argLimit ≤ s.count)) = true := by
    simp only [Bool.or_eq_true, decide_eq_true_eq]; exact h
  simp only [this, if_true]

/-- A rune read and put back: the position is the same. -/
theorem Adv.read_unread (s : ss) (t : RuneTok) (rs : List RuneTok) :
    Adv s rs ((s.took t).UnreadRune t) rs [] ∧ ((s.took t).UnreadRune t).buf = s.buf ∧
    ((s.took t).UnreadRune t).atEOF = false := by
  refine ⟨⟨rfl, ?_, rfl, ⟨rfl, rfl⟩, ?_, ?_⟩, rfl, rfl⟩
  · simp [ss.took, ss.UnreadRune]
  · simp [ss.took, ss.UnreadRune]
  · intro h2; simp [ss.UnreadRune] at h2

theorem Adv.took (s : ss) (t : RuneTok) (rs : List RuneTok) (h : s.atEOF = false) :
    Adv s (t :: rs) (s.took t) rs [t] ∧ (s.took t).buf = s.buf ∧ (s.took t).atEOF = false := by
  refine ⟨⟨rfl, ?_, rfl, ⟨rfl, rfl⟩, ?_, ?_⟩, rfl, h⟩
  · simp [ss.took]
  · simp [ss.took]
  · intro h2; simp [ss.took, h] at h2

theorem ss.notEOF_ok (s : ss) (rs : List RuneTok) (u : Unit) (s' : ss) (rs' : List RuneTok)
    (h : s.notEOF rs = .ok u s' rs') (hi : Inv s rs) :
    Adv s rs s' rs' [] ∧ s'.buf = s.buf ∧ ¬ Stuck s := by
  unfold ss.notEOF at h
  cases hg : s.getRune rs with
  | fail e hw => simp [hg] at h
  | ok x s1 rs1 =>
    rcases ss.getRune_ok s rs x s1 rs1 hg hi with ⟨rfl, _, _, _⟩ | ⟨t, rfl, rfl, rfl, h1, h2⟩
    · simp [hg] at h
    · simp only [hg, Scan.ok.injEq] at h
      obtain ⟨_, rfl, rfl⟩ := h
      have := Adv.read_unread s t (t :: rs1)
      refine ⟨this.1, this.2.1, ?_⟩
      intro hs
      rcases hs with hs | hs
      · simp [h1] at hs
      · omega

theorem ss.accept_ok (s : ss) (ok : List Nat) (rs : List RuneTok) (b : Bool) (s' : ss)
    (rs' : List RuneTok) (h : s.accept ok rs = .ok b s' rs') (hi : Inv s rs) :
    (b = false ∧ Adv s rs s' rs' [] ∧ s'.buf = s.buf) ∨
    (∃ t, b = true ∧ Adv s rs s' rs' [t] ∧ ok.contains t.r = true ∧ s'.buf = s.buf ++ [t.r] ∧
      s'.count ≤ s.argLimit) := by
  unfold ss.accept ss.consume at h
  cases hg : s.getRune rs with
  | fail e hw => simp [hg] at h
  | ok x s1 rs1 =>
    rcases ss.getRune_ok s rs x s1 rs1 hg hi with ⟨rfl, h1, _, h3⟩ | ⟨t, rfl, rfl, rfl, h1, h2⟩
    · simp only [hg, Scan.ok.injEq] at h
      obtain ⟨rfl, rfl, rfl⟩ := h
      exact Or.inl ⟨rfl, h1, h3⟩
    · simp only [hg] at h
      by_cases hc : ok.contains t.r = true
      · simp only [hc, if_true, Scan.ok.injEq] at h
        obtain ⟨rfl, rfl, rfl⟩ := h
        right
        have ht := Adv.took s t rs1 h1
        refine ⟨t, rfl, ?_, hc, ?_, ?_⟩
        · obtain ⟨a1, a2, a3, a4, a5, a6⟩ := ht.1
          exact ⟨a1, a2, a3, a4, a5, a6⟩
        · simp [ss.took]
        · simp [ss.took]; omega
      · simp only [hc, if_false, if_true, Bool.false_eq_true, Scan.ok.injEq] at h
        obtain ⟨rfl, rfl, rfl⟩ := h
        have := Adv.read_unread s t (t :: rs1)
        exact Or.inl ⟨rfl, this.1, this.2.1⟩

theorem ss.peek_ok (s : ss) (ok : List Nat) (rs : List RuneTok) (b : Bool) (s' : ss)
    (rs' : List RuneTok) (h : s.peek ok rs = .ok b s' rs') (hi : Inv s rs) :
    Adv s rs s' rs' [] ∧ s'.buf = s.buf := by
  unfold ss.peek at h
  cases hg : s.getRune rs with
  | fail e hw => simp [hg] at h
  | ok x s1 rs1 =>
    rcases ss.getRune_ok s rs x s1 rs1 hg hi with ⟨rfl, h1, _, h3⟩ | ⟨t, rfl, rfl, rfl, h1, h2⟩
    · simp only [hg, Scan.ok.injEq] at h
      obtain ⟨_, rfl, rfl⟩ := h
      exact ⟨h1, h3⟩
    · simp only [hg, Scan.ok.injEq] at h
      obtain ⟨_, rfl, rfl⟩ := h
      have := Adv.read_unread s t (t :: rs1)
      exact ⟨this.1, this.2.1⟩

/-- The state after a rune was read, other steps that read nothing were
made, and the rune was put back. -/
theorem Adv.unread_after {s s2 : ss} {t : RuneTok} {rest : List RuneTok}
    (h1 : s.atEOF = false) (h2 : Adv (s.took t) rest s2 rest []) (hb : s2.buf = s.buf) :
    Adv s (t :: rest) (s2.UnreadRune t) (t :: rest) [] ∧ (s2.UnreadRune t).buf = s.buf := by
  obtain ⟨_, a2, a3, a4, a5, _⟩ := h2
  have ht := (Adv.took s t rest h1).1
  obtain ⟨_, b2, b3, b4, b5, _⟩ := ht
  refine ⟨⟨rfl, ?_, ?_, ?_, ?_, ?_⟩, ?_⟩
  · simp only [ss.UnreadRune, List.length_nil] at a2 b2 ⊢
    simp only [List.length_singleton] at b2
    omega
  · simpa [ss.UnreadRune] using a3.trans b3
  · exact ⟨a4.1.trans b4.1, a4.2.trans b4.2⟩
  · simpa [ss.UnreadRune] using Nat.le_trans b5 a5
  · intro h; simp [ss.UnreadRune] at h
  · simpa [ss.UnreadRune] using hb

theorem ss.SkipSpace_ok (rs : List RuneTok) :
    ∀ (s : ss) (u : Unit) (s' : ss) (rs' : List RuneTok), s.SkipSpace rs = .ok u s' rs' →
      Inv s rs → ∃ ws, Adv s rs s' rs' ws ∧ blankRunes ws ∧ s'.buf = s.buf := by
  induction rs with
  | nil =>
    intro s u s' rs' h hi
    unfold ss.SkipSpace at h
    cases hg : s.getRune [] with
    | fail e hw => simp [hg] at h
    | ok x s1 rs1 =>
      simp only [hg, Scan.ok.injEq] at h
      obtain ⟨_, rfl, rfl⟩ := h
      rcases ss.getRune_ok s [] x s1 rs1 hg hi with ⟨rfl, h1, _, h3⟩ | ⟨t, _, h2, _⟩
      · exact ⟨[], h1, by intro t ht; simp at ht, h3⟩
      · simp at h2
  | cons t rest ih =>
    intro s u s' rs' h hi
    unfold ss.SkipSpace at h
    cases hg : s.getRune (t :: rest) with
    | fail e hw => simp [hg] at h
    | ok x s1 rs1 =>
      rcases ss.getRune_ok s _ x s1 rs1 hg hi with ⟨rfl, h1, _, h3⟩ | ⟨t', rfl, h2, rfl, h4, h5⟩
      · simp only [hg, Scan.ok.injEq] at h
        obtain ⟨_, rfl, rfl⟩ := h
        exact ⟨[], h1, by intro t ht; simp at ht, h3⟩
      · simp only [List.cons.injEq] at h2
        obtain ⟨rfl, rfl⟩ := h2
        simp only [hg] at h
        have htook := Adv.took s t rest h4
        have hpk : ∀ b s2 rs2,
            (if t.r = 13 then (s.took t).peek [10] rest else Scan.ok false (s.took t) rest) =
              .ok b s2 rs2 →
            Adv (s.took t) rest s2 rest [] ∧ s2.buf = s.buf ∧ (b = true → t.r = 13) := by
          intro b s2 rs2 hp
          by_cases h13 : t.r = 13
          · simp only [h13, if_true] at hp
            have := ss.peek_ok _ _ _ _ _ _ hp htook.1.2.2.2.2.2
            have hrs : rest = rs2 := by simpa using this.1.1
            subst hrs
            exact ⟨this.1, this.2.trans htook.2.1, fun _ => h13⟩
          · simp only [h13, if_false, Scan.ok.injEq] at hp
            obtain ⟨rfl, rfl, rfl⟩ := hp
            exact ⟨Adv.refl _ _ htook.1.2.2.2.2.2, htook.2.1, fun hb => by simp at hb⟩
        cases hP : (if t.r = 13 then (s.took t).peek [10] rest
            else Scan.ok false (s.took t) rest) with
        | fail e hw => simp [hP] at h
        | ok b s2 rs2 =>
          obtain ⟨hadv, hbuf, hb13⟩ := hpk b s2 rs2 hP
          simp only [hP] at h
          cases b with
          | true =>
            simp only [] at h
            obtain ⟨ws, hws, hbl, hbf⟩ := ih s2 u s' rs' h hadv.2.2.2.2.2
            refine ⟨t :: ws, ?_, ?_, hbf.trans hbuf⟩
            · have := (htook.1.trans hadv).trans hws
              simpa using this
            · intro x hx
              simp only [List.mem_cons] at hx
              rcases hx with rfl | hx
              · have := hb13 rfl
                rw [this]
                decide
              · exact hbl x hx
          | false =>
            simp only [] at h
            by_cases h10 : t.r = 10
            · simp [h10] at h
            · simp only [h10, if_false] at h
              by_cases hsp : isSpace t.r = true
              · simp only [hsp, Bool.not_true, Bool.false_eq_true, if_false] at h
                obtain ⟨ws, hws, hbl, hbf⟩ := ih s2 u s' rs' h hadv.2.2.2.2.2
                refine ⟨t :: ws, ?_, ?_, hbf.trans hbuf⟩
                · have := (htook.1.trans hadv).trans hws
                  simpa using this
                · intro x hx
                  simp only [List.mem_cons] at hx
                  rcases hx with rfl | hx
                  · exact ⟨hsp, h10⟩
                  · exact hbl x hx
              · simp only [Bool.not_eq_true] at hsp
                simp only [hsp, Bool.not_false, if_true, Scan.ok.injEq] at h
                obtain ⟨_, rfl, rfl⟩ := h
                have := Adv.unread_after h4 hadv hbuf
                exact ⟨[], this.1, by intro x hx; simp at hx, this.2⟩

theorem ss.acceptAll_ok (ok : List Nat) (rs : List RuneTok) :
    ∀ (s : ss) (u : Unit) (s' : ss) (rs' : List RuneTok), s.acceptAll ok rs = .ok u s' rs' →
      Inv s rs → ∃ ds, Adv s rs s' rs' ds ∧ (∀ t ∈ ds, ok.contains t.r = true) ∧
        s'.buf = s.buf ++ ds.map (fun t => t.r) ∧ (ds ≠ [] → s'.count ≤ s.argLimit) := by
  induction rs with
  | nil =>
    intro s u s' rs' h hi
    unfold ss.acceptAll at h
    cases hg : s.accept ok [] with
    | fail e hw => simp [hg] at h
    | ok b s1 rs1 =>
      simp only [hg, Scan.ok.injEq] at h
      obtain ⟨_, rfl, rfl⟩ := h
      rcases ss.accept_ok s ok [] b s1 rs1 hg hi with ⟨_, h1, h3⟩ | ⟨t, _, h2, _⟩
      · exact ⟨[], h1, by intro t ht; simp at ht, by simp [h3], by simp⟩
      · have := h2.1
        simp at this
  | cons t rest ih =>
    intro s u s' rs' h hi
    unfold ss.acceptAll at h
    cases hg : s.accept ok (t :: rest) with
    | fail e hw => simp [hg] at h
    | ok b s1 rs1 =>
      rcases ss.accept_ok s ok _ b s1 rs1 hg hi with ⟨rfl, h1, h3⟩ | ⟨t', rfl, h2, h4, h5, h6⟩
      · simp only [hg, Scan.ok.injEq] at h
        obtain ⟨_, rfl, rfl⟩ := h
        exact ⟨[], h1, by intro t ht; simp at ht, by simp [h3], by simp⟩
      · have hsplit := h2.1
        simp only [List.singleton_append, List.cons.injEq] at hsplit
        obtain ⟨rfl, rfl⟩ := hsplit
        simp only [hg] at h
        obtain ⟨ds, hds, hall, hbuf, hcnt⟩ := ih s1 u s' rs' h h2.2.2.2.2.2
        refine ⟨t :: ds, ?_, ?_, ?_, ?_⟩
        · simpa using h2.trans hds
        · intro x hx
          simp only [List.mem_cons] at hx
          rcases hx with rfl | hx
          · exact h4
          · exact hall x hx
        · rw [hbuf, h5]; simp
        · intro _
          by_cases hd : ds = []
          · subst hd
            have := hds.2.1
            simp only [List.length_nil, Nat.add_zero] at this
            omega
          · have := hcnt hd
            rw [h2.2.2.1] at this
            exact this

theorem ss.scanNumber_ok (s : ss) (digits : List Nat) (rs : List RuneTok) (tok : List Nat)
    (s' : ss) (rs' : List RuneTok) (h : s.scanNumber digits rs = .ok tok s' rs') (hi : Inv s rs) :
    ∃ ds, ds ≠ [] ∧ Adv s rs s' rs' ds ∧ (∀ t ∈ ds, digits.contains t.r = true) ∧
      tok = s.buf ++ ds.map (fun t => t.r) ∧ s'.count ≤ s.argLimit := by
  unfold ss.scanNumber at h
  cases hn : s.notEOF rs with
  | fail e hw => simp [hn] at h
  | ok u s1 rs1 =>
    obtain ⟨a1, b1, _⟩ := ss.notEOF_ok s rs u s1 rs1 hn hi
    simp only [hn] at h
    cases ha : s1.accept digits rs1 with
    | fail e hw => simp [ha] at h
    | ok b s2 rs2 =>
      rcases ss.accept_ok s1 digits rs1 b s2 rs2 ha a1.2.2.2.2.2 with
        ⟨rfl, _, _⟩ | ⟨t, rfl, a2, c2, b2, d2⟩
      · simp [ha] at h
      · simp only [ha] at h
        cases hl : s2.acceptAll digits rs2 with
        | fail e hw => simp [hl] at h
        | ok u3 s3 rs3 =>
          simp only [hl, Scan.ok.injEq] at h
          obtain ⟨rfl, rfl, rfl⟩ := h
          obtain ⟨ds, a3, c3, b3, d3⟩ := ss.acceptAll_ok digits rs2 s2 u3 s3 rs3 hl a2.2.2.2.2.2
          refine ⟨t :: ds, by simp, ?_, ?_, ?_, ?_⟩
          · simpa using (a1.trans a2).trans a3
          · intro x hx
            simp only [List.mem_cons] at hx
            rcases hx with rfl | hx
            · exact c2
            · exact c3 x hx
          · rw [b3, b2, b1]; simp
          · by_cases hd : ds = []
            · subst hd
              have := a3.2.1
              simp only [List.length_nil, Nat.add_zero] at this
              rw [this, ← a1.2.2.1]
              exact d2
            · have := d3 hd
              rw [a2.2.2.1, a1.2.2.1] at this
              exact this

theorem decimalDigits_contains (r : Nat) (h : decimalDigits.contains r = true) :
    isDigit r = true ∧ r < 128 := by
  simp [decimalDigits] at h
  simp only [isDigit, Bool.and_eq_true, decide_eq_true_eq]
  omega

theorem sign_contains (r : Nat) (h : sign.contains r = true) : r = 43 ∨ r = 45 := by
  simpa [sign] using h

/-- The verb `%d`, when it succeeds, has read blanks and then a number: an
optional sign and at least one digit, within the width. -/
theorem ss.scanInt_ok (s : ss) (rs : List RuneTok) (i : Int) (s' : ss) (rs' : List RuneTok)
    (h : s.scanInt rs = .ok i s' rs') (hi : Inv s rs) (hb : s.buf = []) :
    ∃ ws tk, Adv s rs s' rs' (ws ++ tk) ∧ blankRunes ws ∧ (∀ t ∈ tk, t.r < 128) ∧
      numToken tk.length (tk.map (fun t => t.r)) = true ∧
      ParseInt (tk.map (fun t => t.r)) = .ok i ∧ s'.count ≤ s.argLimit := by
  unfold ss.scanInt at h
  cases h1 : s.SkipSpace rs with
  | fail e hw => simp [h1] at h
  | ok u1 s1 rs1 =>
    obtain ⟨ws, a1, bl, b1⟩ := ss.SkipSpace_ok rs s u1 s1 rs1 h1 hi
    simp only [h1] at h
    cases h2 : s1.notEOF rs1 with
    | fail e hw => simp [h2] at h
    | ok u2 s2 rs2 =>
      obtain ⟨a2, b2, _⟩ := ss.notEOF_ok s1 rs1 u2 s2 rs2 h2 a1.2.2.2.2.2
      simp only [h2] at h
      cases h3 : s2.accept sign rs2 with
      | fail e hw => simp [h3] at h
      | ok b3 s3 rs3 =>
        simp only [h3] at h
        cases h4 : s3.scanNumber decimalDigits rs3 with
        | fail e hw => simp [h4] at h
        | ok tok s4 rs4 =>
          simp only [h4] at h
          cases h5 : ParseInt tok with
          | error e => simp [h5] at h
          | ok j =>
            simp only [h5, Scan.ok.injEq] at h
            obtain ⟨rfl, rfl, rfl⟩ := h
            have hadv12 := a1.trans a2
            rw [List.append_nil] at hadv12
            rcases ss.accept_ok s2 sign rs2 b3 s3 rs3 h3 a2.2.2.2.2.2 with
              ⟨_, a3, c3⟩ | ⟨t, _, a3, d3, c3, _⟩
            · obtain ⟨ds, hne, a4, d4, c4, e4⟩ :=
                ss.scanNumber_ok s3 _ rs3 tok s4 rs4 h4 a3.2.2.2.2.2
              have hbuf : s3.buf = [] := by rw [c3, b2, b1, hb]
              rw [hbuf, List.nil_append] at c4
              refine ⟨ws, ds, ?_, bl, ?_, ?_, ?_, ?_⟩
              · simpa using (hadv12.trans a3).trans a4
              · intro x hx; exact (decimalDigits_contains _ (d4 x hx)).2
              · cases ds with
                | nil => exact absurd rfl hne
                | cons d ds' =>
                  have hd := decimalDigits_contains _ (d4 d (List.mem_cons_self _ _))
                  have hd' : ¬ (d.r = 43 ∨ d.r = 45) := by
                    have := hd.1
                    simp only [isDigit, Bool.and_eq_true, decide_eq_true_eq] at this
                    omega
                  simp only [numToken, List.map_cons, List.length_cons, List.length_map,
                    Nat.le_refl, decide_True, Bool.true_and, hd', if_false, List.all_cons,
                    hd.1, List.all_eq_true, List.mem_map]
                  rintro x ⟨y, hy, rfl⟩
                  exact (decimalDigits_contains _ (d4 y (List.mem_cons_of_mem _ hy))).1
              · rw [← c4]; exact h5
              · rw [a3.2.2.1, a2.2.2.1, a1.2.2.1] at e4; exact e4
            · obtain ⟨ds, hne, a4, d4, c4, e4⟩ :=
                ss.scanNumber_ok s3 _ rs3 tok s4 rs4 h4 a3.2.2.2.2.2
              have hbuf : s3.buf = [t.r] := by rw [c3, b2, b1, hb]; rfl
              rw [hbuf] at c4
              refine ⟨ws, t :: ds, ?_, bl, ?_, ?_, ?_, ?_⟩
              · have := (hadv12.trans a3).trans a4
                simpa using this
              · intro x hx
                simp only [List.mem_cons] at hx
                rcases hx with rfl | hx
                · have := sign_contains _ d3; omega
                · exact (decimalDigits_contains _ (d4 x hx)).2
              · have hs := sign_contains _ d3
                simp only [numToken, List.map_cons, List.length_cons, List.length_map,
                  Nat.le_refl, decide_True, Bool.true_and, hs, if_true, Bool.and_eq_true,
                  Bool.not_eq_true', List.isEmpty_eq_false, List.all_eq_true, List.mem_map]
                constructor
                · simpa using hne
                · rintro x ⟨y, hy, rfl⟩
                  exact (decimalDigits_contains _ (d4 y hy)).1
              · rw [show List.map (fun t => t.r) (t :: ds) = [t.r] ++ ds.map (fun t => t.r)
                  from rfl, ← c4]
                exact h5
              · rw [a3.2.2.1, a2.2.2.1, a1.2.2.1] at e4; exact e4

theorem ss.skipBlanks_none (s : ss) (rs : List RuneTok) :
    s.skipBlanks none rs = .ok none s rs := by
  cases rs <;> rfl

theorem ss.skipBlanks_ok (rs : List RuneTok) :
    ∀ (s : ss) (c : RuneTok) (c' : Option RuneTok) (s' : ss) (rs' : List RuneTok),
      s.skipBlanks (some c) rs = .ok c' s' rs' → Inv s rs →
      (isSpace c.r && c.r != 10) = true →
      ∃ bl, blankRunes bl ∧
        ((c' = none ∧ Adv s rs s' rs' bl ∧ Stuck s') ∨
         (∃ x, c' = some x ∧ Adv s rs s' rs' (bl ++ [x]) ∧
           (isSpace x.r && x.r != 10) = false)) := by
  induction rs with
  | nil =>
    intro s c c' s' rs' h hi hc
    unfold ss.skipBlanks at h
    simp only [hc, if_true] at h
    rcases ss.getRune_ok s [] c' s' rs' h hi with ⟨rfl, h1, h2, _⟩ | ⟨t, _, h2, _⟩
    · exact ⟨[], by intro t ht; simp at ht, Or.inl ⟨rfl, h1, h2⟩⟩
    · simp at h2
  | cons t rest ih =>
    intro s c c' s' rs' h hi hc
    unfold ss.skipBlanks at h
    simp only [hc, if_true] at h
    cases hg : s.getRune (t :: rest) with
    | fail e hw => simp [hg] at h
    | ok x s1 rs1 =>
      rcases ss.getRune_ok s _ x s1 rs1 hg hi with ⟨rfl, h1, h2, _⟩ | ⟨t', rfl, h2, rfl, h4, h5⟩
      · simp only [hg, Scan.ok.injEq] at h
        obtain ⟨rfl, rfl, rfl⟩ := h
        exact ⟨[], by intro t ht; simp at ht, Or.inl ⟨rfl, h1, h2⟩⟩
      · simp only [List.cons.injEq] at h2
        obtain ⟨rfl, rfl⟩ := h2
        simp only [hg] at h
        have htook := Adv.took s t rest h4
        by_cases hb : (isSpace t.r && t.r != 10) = true
        · obtain ⟨bl, hbl, hcase⟩ := ih (s.took t) t c' s' rs' h htook.1.2.2.2.2.2 hb
          have hbl2 : blankRunes (t :: bl) := by
            intro x hx
            simp only [List.mem_cons] at hx
            rcases hx with rfl | hx
            · simpa using hb
            · exact hbl x hx
          refine ⟨t :: bl, hbl2, ?_⟩
          rcases hcase with ⟨rfl, a, st⟩ | ⟨x, rfl, a, nb⟩
          · exact Or.inl ⟨rfl, by simpa using htook.1.trans a, st⟩
          · exact Or.inr ⟨x, rfl, by simpa using htook.1.trans a, nb⟩
        · simp only [Bool.not_eq_true] at hb
          rw [ss.skipBlanks_stop _ t rest hb] at h
          simp only [Scan.ok.injEq] at h
          obtain ⟨rfl, rfl, rfl⟩ := h
          exact ⟨[], by intro t ht; simp at ht, Or.inr ⟨t, rfl, by simpa using htook.1, hb⟩⟩

/-- The last rune read is put back. -/
theorem Adv.unread_last {s s2 : ss} {rs rs2 bl : List RuneTok} {x : RuneTok}
    (h : Adv s rs s2 rs2 (bl ++ [x])) : Adv s rs (s2.UnreadRune x) (x :: rs2) bl := by
  obtain ⟨a1, a2, a3, a4, a5, _⟩ := h
  refine ⟨by simpa using a1, ?_, by simpa [ss.UnreadRune] using a3,
    by simpa [ss.UnreadRune] using a4, by simpa [ss.UnreadRune] using a5, ?_⟩
  · simp only [ss.UnreadRune, List.length_append, List.length_singleton] at a2 ⊢
    omega
  · intro h; simp [ss.UnreadRune] at h

/-- The piece `" "` of the format, when it succeeds, has read blanks, at
least one unless no rune could be read. -/
theorem ss.advanceSpace_ok (s : ss) (rs : List RuneTok) (u : Unit) (s' : ss)
    (rs' : List RuneTok) (h : s.advanceSpace rs = .ok u s' rs') (hi : Inv s rs) :
    ∃ ws, Adv s rs s' rs' ws ∧ blankRunes ws ∧ (ws ≠ [] ∨ Stuck s') := by
  unfold ss.advanceSpace at h
  cases hg : s.getRune rs with
  | fail e hw => simp [hg] at h
  | ok x s1 rs1 =>
    rcases ss.getRune_ok s _ x s1 rs1 hg hi with ⟨rfl, h1, h2, _⟩ | ⟨c, rfl, rfl, rfl, h4, h5⟩
    · simp only [hg, Bool.false_eq_true, if_false, ss.skipBlanks_none, Scan.ok.injEq] at h
      obtain ⟨_, rfl, rfl⟩ := h
      exact ⟨[], h1, by intro t ht; simp at ht, Or.inr h2⟩
    · simp only [hg] at h
      have htook := Adv.took s c rs1 h4
      by_cases hsp : isSpace c.r = true
      · by_cases h10 : c.r = 10
        · exfalso
          rw [h10] at hsp
          simp only [h10, hsp, Bool.not_true, Bool.false_eq_true, if_false, beq_self_eq_true,
            if_true] at h
          exact absurd h (by simp)
        · have hne : (c.r == 10) = false := by simpa using h10
          simp only [hsp, Bool.not_true, Bool.false_eq_true, if_false, hne] at h
          have hb : (isSpace c.r && c.r != 10) = true := by simp [hsp, h10]
          cases hk : (s.took c).skipBlanks (some c) rs1 with
          | fail e hw => simp [hk] at h
          | ok c' s2 rs2 =>
            obtain ⟨bl, hbl, hcase⟩ :=
              ss.skipBlanks_ok rs1 _ c c' s2 rs2 hk htook.1.2.2.2.2.2 hb
            have hbl2 : blankRunes (c :: bl) := by
              intro x hx
              simp only [List.mem_cons] at hx
              rcases hx with rfl | hx
              · exact ⟨hsp, h10⟩
              · exact hbl x hx
            rcases hcase with ⟨rfl, a, _⟩ | ⟨x, rfl, a, _⟩
            · simp only [hk, Scan.ok.injEq] at h
              obtain ⟨_, rfl, rfl⟩ := h
              exact ⟨c :: bl, by simpa using htook.1.trans a, hbl2, Or.inl (by simp)⟩
            · simp only [hk, Scan.ok.injEq] at h
              obtain ⟨_, rfl, rfl⟩ := h
              have := htook.1.trans a
              rw [← List.append_assoc] at this
              exact ⟨c :: bl, by simpa using Adv.unread_last this, hbl2, Or.inl (by simp)⟩
      · simp [hsp] at h

/-- The piece `"\n"` of the format, when it succeeds, has read blanks and a
newline, unless no rune could be read after the blanks. -/
theorem ss.advanceNewline_ok (s : ss) (rs : List RuneTok) (u : Unit) (s' : ss)
    (rs' : List RuneTok) (h : s.advanceNewline rs = .ok u s' rs') (hi : Inv s rs) :
    ∃ bl, blankRunes bl ∧
      ((∃ nl, nl.r = 10 ∧ Adv s rs s' rs' (bl ++ [nl])) ∨ (Adv s rs s' rs' bl ∧ Stuck s')) := by
  unfold ss.advanceNewline at h
  cases hg : s.getRune rs with
  | fail e hw => simp [hg] at h
  | ok x s1 rs1 =>
    rcases ss.getRune_ok s _ x s1 rs1 hg hi with ⟨rfl, h1, h2, _⟩ | ⟨c, rfl, rfl, rfl, h4, h5⟩
    · simp only [hg, ss.skipBlanks_none, Scan.ok.injEq] at h
      obtain ⟨_, rfl, rfl⟩ := h
      exact ⟨[], by intro t ht; simp at ht, Or.inr ⟨h1, h2⟩⟩
    · simp only [hg] at h
      have htook := Adv.took s c rs1 h4
      by_cases hb : (isSpace c.r && c.r != 10) = true
      · cases hk : (s.took c).skipBlanks (some c) rs1 with
        | fail e hw => simp [hk] at h
        | ok c' s2 rs2 =>
          obtain ⟨bl, hbl, hcase⟩ :=
            ss.skipBlanks_ok rs1 _ c c' s2 rs2 hk htook.1.2.2.2.2.2 hb
          have hbl2 : blankRunes (c :: bl) := by
            intro x hx
            simp only [List.mem_cons] at hx
            rcases hx with rfl | hx
            · simpa using hb
            · exact hbl x hx
          rcases hcase with ⟨rfl, a, st⟩ | ⟨x, rfl, a, _⟩
          · simp only [hk, Scan.ok.injEq] at h
            obtain ⟨_, rfl, rfl⟩ := h
            exact ⟨c :: bl, hbl2, Or.inr ⟨by simpa using htook.1.trans a, st⟩⟩
          · simp only [hk] at h
            by_cases h10 : x.r = 10
            · simp only [h10, bne_self_eq_false, Bool.false_eq_true, if_false,
                Scan.ok.injEq] at h
              obtain ⟨_, rfl, rfl⟩ := h
              have := htook.1.trans a
              rw [← List.append_assoc] at this
              exact ⟨c :: bl, hbl2, Or.inl ⟨x, h10, by simpa using this⟩⟩
            · simp [h10] at h
      · simp only [Bool.not_eq_true] at hb
        rw [ss.skipBlanks_stop _ c rs1 hb] at h
        simp only [] at h
        by_cases h10 : c.r = 10
        · simp only [h10, bne_self_eq_false, Bool.false_eq_true, if_false, Scan.ok.injEq] at h
          obtain ⟨_, rfl, rfl⟩ := h
          exact ⟨[], by intro t ht; simp at ht, Or.inl ⟨c, h10, by simpa using htook.1⟩⟩
        · simp [h10] at h

theorem ss.SkipSpace_stuck (s : ss) (rs : List RuneTok) (h : Stuck s) :
    s.SkipSpace rs = .ok () s rs := by
  cases rs with
  | nil => unfold ss.SkipSpace; rw [ss.getRune_stuck s _ h]
  | cons t rest => unfold ss.SkipSpace; rw [ss.getRune_stuck s _ h]

theorem ss.scanInt_stuck (s : ss) (rs : List RuneTok) (h : Stuck s) (i : Int) (s' : ss)
    (rs' : List RuneTok) : s.scanInt rs ≠ .ok i s' rs' := by
  unfold ss.scanInt
  rw [ss.SkipSpace_stuck s rs h]
  simp only []
  unfold ss.notEOF
  rw [ss.getRune_stuck s rs h]
  simp

theorem numToken_mono (w w' : Nat) (tok : List Nat) (h : numToken w tok = true) (hw : w ≤ w') :
    numToken w' tok = true := by
  unfold numToken at h ⊢
  simp only [Bool.and_eq_true, decide_eq_true_eq] at h ⊢
  exact ⟨Nat.le_trans h.1 hw, h.2⟩

/-- What the scan of the format has read when it reports no error, in runes:
blanks, a number, blanks (at least one), a number, blanks, and then a
newline, unless no rune could be read there. -/
theorem doScanf_ok (s0 : ss) (rs0 : List RuneTok) (hc : s0.count = 0) (hi : Inv s0 rs0)
    (herr : (doScanf s0 rs0).err = none) :
    (doScanf s0 rs0).n = 2 ∧
    ∃ lead tk1 sep tk2 trail rs',
      blankRunes lead ∧ (∀ t ∈ tk1, t.r < 128) ∧
      numToken 3 (tk1.map (fun t => t.r)) = true ∧
      ParseInt (tk1.map (fun t => t.r)) = .ok (doScanf s0 rs0).status ∧
      sep ≠ [] ∧ blankRunes sep ∧ (∀ t ∈ tk2, t.r < 128) ∧
      numToken 8 (tk2.map (fun t => t.r)) = true ∧
      ParseInt (tk2.map (fun t => t.r)) = .ok (doScanf s0 rs0).length ∧
      blankRunes trail ∧
      ((∃ nl, nl.r = 10 ∧ rs0 = lead ++ (tk1 ++ (sep ++ (tk2 ++ (trail ++ nl :: rs'))))) ∨
       (rs0 = lead ++ (tk1 ++ (sep ++ (tk2 ++ (trail ++ rs')))) ∧
        ((s0.avail ≤ (doScanf s0 rs0).hw ∧ rs' = [] ∧ s0.rderr = .EOF) ∨
          hugeWid ≤ lead.length + tk1.length + sep.length + tk2.length + trail.length))) := by
  unfold doScanf at herr ⊢
  cases h1 : s0.SkipSpace rs0 with
  | fail e hw => simp [h1] at herr
  | ok u1 s1 rs1 =>
  simp only [h1] at herr ⊢
  obtain ⟨ws0, a1, bl0, _⟩ := ss.SkipSpace_ok rs0 s0 u1 s1 rs1 h1 hi
  cases h2 : ss.scanInt { s1 with argLimit := min hugeWid (s1.count + 3), buf := [] } rs1 with
  | fail e hw => simp [h2] at herr
  | ok status s2 rs2 =>
  simp only [h2] at herr ⊢
  obtain ⟨ws1, tk1, a2, bl1, as1, nt1, pi1, e2⟩ :=
    ss.scanInt_ok _ rs1 status s2 rs2 h2 a1.2.2.2.2.2 rfl
  cases h3 : ss.advanceSpace { s2 with argLimit := hugeWid } rs2 with
  | fail e hw => simp [h3] at herr
  | ok u3 s3 rs3 =>
  simp only [h3] at herr ⊢
  obtain ⟨sepA, a3, bl3, ne3⟩ := ss.advanceSpace_ok _ rs2 u3 s3 rs3 h3 a2.2.2.2.2.2
  cases h4 : s3.SkipSpace rs3 with
  | fail e hw => simp [h4] at herr
  | ok u4 s4 rs4 =>
  simp only [h4] at herr ⊢
  obtain ⟨ws4, a4, bl4, _⟩ := ss.SkipSpace_ok rs3 s3 u4 s4 rs4 h4 a3.2.2.2.2.2
  cases h5 : ss.scanInt { s4 with argLimit := min hugeWid (s4.count + 8), buf := [] } rs4 with
  | fail e hw => simp [h5] at herr
  | ok length s5 rs5 =>
  simp only [h5] at herr ⊢
  obtain ⟨ws5, tk2, a5, bl5, as2, nt2, pi2, e5⟩ :=
    ss.scanInt_ok _ rs4 length s5 rs5 h5 a4.2.2.2.2.2 rfl
  cases h6 : ss.advanceNewline { s5 with argLimit := hugeWid } rs5 with
  | fail e hw => simp [h6] at herr
  | ok u6 s6 rs6 =>
  simp only [h6]
  obtain ⟨bl, bl6, hcase⟩ := ss.advanceNewline_ok _ rs5 u6 s6 rs6 h6 a5.2.2.2.2.2
  -- the separator is not empty
  have hsep : sepA ≠ [] := by
    rcases ne3 with h | h
    · exact h
    · exfalso
      have h4' := ss.SkipSpace_stuck s3 rs3 h
      rw [h4'] at h4
      simp only [Scan.ok.injEq] at h4
      obtain ⟨_, rfl, rfl⟩ := h4
      refine ss.scanInt_stuck _ rs3 ?_ length s5 rs5 h5
      have hlim : s3.argLimit = hugeWid := a3.2.2.1
      rcases h with h | h
      · exact Or.inl h
      · right
        show min hugeWid (s3.count + 8) ≤ s3.count
        rw [hlim] at h
        exact Nat.le_trans (Nat.min_le_left _ _) h
  -- the widths
  have hw1 : tk1.length ≤ 3 := by
    have h := a2.2.1
    simp only [List.length_append] at h
    have : s2.count ≤ s1.count + 3 := Nat.le_trans e2 (Nat.min_le_right _ _)
    have h' : s2.count = s1.count + (ws1.length + tk1.length) := h
    omega
  have hw2 : tk2.length ≤ 8 := by
    have h := a5.2.1
    simp only [List.length_append] at h
    have : s5.count ≤ s4.count + 8 := Nat.le_trans e5 (Nat.min_le_right _ _)
    have h' : s5.count = s4.count + (ws5.length + tk2.length) := h
    omega
  have hbl : ∀ (x y : List RuneTok), blankRunes x → blankRunes y → blankRunes (x ++ y) := by
    intro x y hx hy t ht
    rcases List.mem_append.mp ht with h | h
    · exact hx t h
    · exact hy t h
  have hrs1 : rs0 = ws0 ++ rs1 := a1.1
  have hrs2 : rs1 = (ws1 ++ tk1) ++ rs2 := a2.1
  have hrs3 : rs2 = sepA ++ rs3 := a3.1
  have hrs4 : rs3 = ws4 ++ rs4 := a4.1
  have hrs5 : rs4 = (ws5 ++ tk2) ++ rs5 := a5.1
  refine ⟨trivial, ws0 ++ ws1, tk1, sepA ++ (ws4 ++ ws5), tk2, bl, rs6, hbl _ _ bl0 bl1, as1,
    numToken_mono _ _ _ (by simpa using nt1) hw1, pi1, by simp [hsep],
    hbl _ _ bl3 (hbl _ _ bl4 bl5), as2, numToken_mono _ _ _ (by simpa using nt2) hw2, pi2,
    bl6, ?_⟩
  rcases hcase with ⟨nl, hnl, a6⟩ | ⟨a6, st⟩
  · left
    refine ⟨nl, hnl, ?_⟩
    have hrs6 : rs5 = (bl ++ [nl]) ++ rs6 := a6.1
    rw [hrs1, hrs2, hrs3, hrs4, hrs5, hrs6]
    simp
  · right
    have hrs6 : rs5 = bl ++ rs6 := a6.1
    refine ⟨by rw [hrs1, hrs2, hrs3, hrs4, hrs5, hrs6]; simp, ?_⟩
    have c1 : s1.count = s0.count + ws0.length := a1.2.1
    have c2 : s2.count = s1.count + (ws1 ++ tk1).length := a2.2.1
    have c3 : s3.count = s2.count + sepA.length := a3.2.1
    have c4 : s4.count = s3.count + ws4.length := a4.2.1
    have c5 : s5.count = s4.count + (ws5 ++ tk2).length := a5.2.1
    have c6 : s6.count = s5.count + bl.length := a6.2.1
    have v1 : s1.avail = s0.avail := a1.2.2.2.1.1
    have v2 : s2.avail = s1.avail := a2.2.2.2.1.1
    have v3 : s3.avail = s2.avail := a3.2.2.2.1.1
    have v4 : s4.avail = s3.avail := a4.2.2.2.1.1
    have v5 : s5.avail = s4.avail := a5.2.2.2.1.1
    have v6 : s6.avail = s5.avail := a6.2.2.2.1.1
    have r1 : s1.rderr = s0.rderr := a1.2.2.2.1.2
    have r2 : s2.rderr = s1.rderr := a2.2.2.2.1.2
    have r3 : s3.rderr = s2.rderr := a3.2.2.2.1.2
    have r4 : s4.rderr = s3.rderr := a4.2.2.2.1.2
    have r5 : s5.rderr = s4.rderr := a5.2.2.2.1.2
    have r6 : s6.rderr = s5.rderr := a6.2.2.2.1.2
    have l6 : s6.argLimit = hugeWid := a6.2.2.1
    rcases st with st | st
    · left
      have := a6.2.2.2.2.2 st
      refine ⟨?_, this.2.1, ?_⟩
      · show s0.avail ≤ s6.hw
        omega
      · rw [← this.2.2, r6, r5, r4, r3, r2, r1]
    · right
      simp only [List.length_append] at c2 c5 ⊢
      omega

theorem decodeRunes_header (e : Bool) (bs : List Nat)
    (lead tk1 sep tk2 trail tail : List RuneTok)
    (h : decodeRunes e 0 bs = lead ++ (tk1 ++ (sep ++ (tk2 ++ (trail ++ tail)))))
    (h1 : blankRunes lead) (h2 : ∀ t ∈ tk1, t.r < 128) (h3 : blankRunes sep)
    (h4 : ∀ t ∈ tk2, t.r < 128) (h5 : blankRunes trail) :
    ∃ (leadC sepC trailC : List (List Nat)) (p5 : List Nat),
      bs = leadC.flatten ++ tk1.map (fun t => t.r) ++ sepC.flatten ++ tk2.map (fun t => t.r) ++
        trailC.flatten ++ p5 ∧
      decodeRunes e 0 p5 = tail ∧ leadC.all blankChar = true ∧ sepC.all blankChar = true ∧
      trailC.all blankChar = true ∧ leadC.length = lead.length ∧ sepC.length = sep.length ∧
      trailC.length = trail.length := by
  obtain ⟨leadC, p1, e1, d1, b1, l1⟩ := decodeRunes_blanks e lead bs _ h h1
  obtain ⟨p2, e2, d2⟩ := decodeRunes_asciiToks e tk1 p1 _ d1 h2
  obtain ⟨sepC, p3, e3, d3, b3, l3⟩ := decodeRunes_blanks e sep p2 _ d2 h3
  obtain ⟨p4, e4, d4⟩ := decodeRunes_asciiToks e tk2 p3 _ d3 h4
  obtain ⟨trailC, p5, e5, d5, b5, l5⟩ := decodeRunes_blanks e trail p4 _ d4 h5
  refine ⟨leadC, sepC, trailC, p5, ?_, d5, b1, b3, b5, l1, l3, l5⟩
  rw [e1, e2, e3, e4, e5]
  simp

/-- What `Fscanf` has read when it reports no error: a header in the form
that the scan accepts, followed by a newline (or of 2^30 characters), or a
header of that form that the end of the reader cuts off, every byte being
fetched. -/
theorem Fscanf_ok (bs : List Nat) (rderr : GoError) (herr : (Fscanf bs rderr).err = none) :
    (Fscanf bs rderr).n = 2 ∧
    (LenientHeader bs (Fscanf bs rderr).status (Fscanf bs rderr).length ∨
      (CutHeader bs (Fscanf bs rderr).status (Fscanf bs rderr).length ∧
        bs.length ≤ (Fscanf bs rderr).hw ∧ rderr = .EOF)) := by
  unfold Fscanf at herr ⊢
  obtain ⟨hn, lead, tk1, sep, tk2, trail, rs', bl1, as1, nt1, pi1, hsep, bl2, as2, nt2, pi2,
    bl3, hcase⟩ := doScanf_ok _ _ rfl (by intro h; simp at h) herr
  refine ⟨hn, ?_⟩
  rcases hcase with ⟨nl, hnl, hrs⟩ | ⟨hrs, hend⟩
  · left
    obtain ⟨leadC, sepC, trailC, p5, ebs, d5, b1, b3, b5, l1, l3, l5⟩ :=
      decodeRunes_header _ bs lead tk1 sep tk2 trail _ hrs bl1 as1 bl2 as2 bl3
    obtain ⟨pre, post, e6, _, _, hc⟩ := decodeRunes_uncons _ p5 nl rs' d5
    have hp5 : p5 = 10 :: post := by
      rcases hc with ⟨_, rfl⟩ | ⟨hc, _⟩
      · rw [e6, hnl]; rfl
      · omega
    refine ⟨p5, _, ⟨leadC, tk1.map (fun t => t.r), sepC, tk2.map (fun t => t.r), trailC, ebs,
      b1, nt1, pi1, ?_, b3, nt2, pi2, b5, rfl⟩, Or.inl (by rw [hp5]; rfl)⟩
    intro h
    rw [h, List.length_nil] at l3
    exact hsep (List.length_eq_zero.mp l3.symm)
  · obtain ⟨leadC, sepC, trailC, p5, ebs, d5, b1, b3, b5, l1, l3, l5⟩ :=
      decodeRunes_header _ bs lead tk1 sep tk2 trail _ hrs bl1 as1 bl2 as2 bl3
    have hsepC : sepC ≠ [] := by
      intro h
      rw [h, List.length_nil] at l3
      exact hsep (List.length_eq_zero.mp l3.symm)
    rcases hend with ⟨hhw, hnil, heof⟩ | hend
    · right
      have heof' : rderr = .EOF := heof
      subst heof'
      subst hnil
      have hp5 : p5 = [] := decodeRunes_nil p5 d5
      subst hp5
      exact ⟨⟨_, leadC, tk1.map (fun t => t.r), sepC, tk2.map (fun t => t.r), trailC, ebs,
        b1, nt1, pi1, hsepC, b3, nt2, pi2, b5, rfl⟩, hhw, rfl⟩
    · left
      refine ⟨p5, _, ⟨leadC, tk1.map (fun t => t.r), sepC, tk2.map (fun t => t.r), trailC, ebs,
        b1, nt1, pi1, hsepC, b3, nt2, pi2, b5, rfl⟩, Or.inr ?_⟩
      simp only [List.length_map, l1, l3, l5]
      simp only [hugeWid] at hend
      omega

theorem dropBytes_all (chunks : List (List Nat)) :
    ∀ k, chunks.flatten.length ≤ k → dropBytes k chunks = [] := by
  induction chunks with
  | nil => intro k _; rfl
  | cons c cs ih =>
    intro k hk
    simp only [List.flatten_cons, List.length_append] at hk
    unfold dropBytes
    have : ¬ (k < c.length) := by omega
    simp only [this, if_false]
    exact ih _ (by omega)

theorem readChunk_length (n : Nat) (chunks : List (List Nat)) :
    ∀ bs rest, readChunk n chunks = some (bs, rest) → bs.length ≤ n := by
  induction chunks with
  | nil => intro bs rest h; simp [readChunk] at h
  | cons c cs ih =>
    intro bs rest h
    cases c with
    | nil => exact ih bs rest (by simpa [readChunk] using h)
    | cons b tl =>
      simp only [readChunk, Option.some.injEq, Prod.mk.injEq] at h
      rw [← h.1]
      exact List.length_take_le _ _

theorem Sock.Read_length (s s' : Sock) (n : Nat) (bs : List Nat)
    (h : s.Read n = (s', .ok bs)) : bs.length ≤ n := by
  unfold Sock.Read at h
  split_ifs at h
  · simp at h
  · simp only [Prod.mk.injEq, Except.ok.injEq] at h
    rw [← h.2]
    simp
  · cases hr : readChunk n s.input with
    | none => simp [hr] at h
    | some v =>
      obtain ⟨x, rest⟩ := v
      simp only [hr, Prod.mk.injEq, Except.ok.injEq] at h
      rw [← h.2]
      exact readChunk_length n _ x rest hr

/-! ## The code at the inputs where it departs from the specification -/

/-- C5, the code at a failing input: the frame `200 00000005\nhello\n`
arrives in two chunks, the first one ending after `hel`. The single `Read`
of the body returns 3 of the 6 bytes requested; `read` returns the body `hel`
followed by two zero bytes, and leaves `lo\n` on the socket, where the next
`read` looks for a header. -/
theorem read_short_body :
    (Connection.fresh [ascii "200 00000005\nhel", ascii "lo\n"]).read =
      ({ Connection.fresh [[], ascii "lo\n"] with trace := [Event.read] },
       .ret (.ok ⟨200, ascii "hel" ++ [0, 0]⟩)) := by
  decide

/-- C6, the code at a failing input: after `Keepalive`, the first `Close`
returns nil and the second `Close` panics, `c.stop` being still set and
closing the channel `quit` a second time. -/
theorem Close_twice_after_Keepalive :
    ((Connection.fresh []).Keepalive 1).1.Close.2 = .ret none ∧
    ((Connection.fresh []).Keepalive 1).1.Close.1.Close.2 = .panic "close of closed channel" := by
  decide

/-- C10, the code at failing inputs: the scan accepts the header
`200 -0000002\n` with length -2 and `make([]byte, length+1)` panics; it
accepts `200 -0000001\n` with length -1 and the slice `buf[0 : len(buf)-1]`
of the empty buffer panics. -/
theorem read_negative_length :
    ((Connection.fresh [ascii "200 -0000002\n"]).read).2 = .panic "makeslice: len out of range" ∧
    ((Connection.fresh [ascii "200 -0000001\n"]).read).2 =
      .panic "slice bounds out of range [:-1]" := by
  decide

theorem Connection.read_ok_scan (c c1 : Connection) (sock : Sock) (r : Response)
    (hconn : c.conn = some sock) (h : c.read = (c1, .ret (.ok r))) :
    (Fscanf sock.reader.1 sock.reader.2).err = none ∧
    r.Status = (Fscanf sock.reader.1 sock.reader.2).status ∧
    (r.Body.length : Int) = (Fscanf sock.reader.1 sock.reader.2).length ∧
    ¬ (sock.input.flatten.length ≤ (Fscanf sock.reader.1 sock.reader.2).hw) := by
  unfold Connection.read at h
  simp only [hconn] at h
  cases hF : (Fscanf sock.reader.1 sock.reader.2).err with
  | some e => simp [hF] at h
  | none =>
    simp only [hF] at h
    by_cases hn : (Fscanf sock.reader.1 sock.reader.2).n ≠ 2
    · simp [hn] at h
    · simp only [hn, if_false] at h
      by_cases hl : (Fscanf sock.reader.1 sock.reader.2).length + 1 < 0
      · simp [hl] at h
      · simp only [hl, if_false] at h
        cases hR : Sock.Read
            { sock with input := dropBytes (Fscanf sock.reader.1 sock.reader.2).hw sock.input }
            ((Fscanf sock.reader.1 sock.reader.2).length + 1).toNat with
        | mk sock2 res =>
          cases res with
          | error e => simp [hR] at h
          | ok bs =>
            simp only [hR] at h
            have hlen := Sock.Read_length _ _ _ _ hR
            by_cases hb : (bs ++ List.replicate
                (((Fscanf sock.reader.1 sock.reader.2).length + 1).toNat - bs.length) 0).length = 0
            · simp [hb] at h
            · simp only [hb, if_false, Prod.mk.injEq, Outcome.ret.injEq, Except.ok.injEq] at h
              obtain ⟨_, rfl⟩ := h
              simp only [List.length_append, List.length_replicate] at hb
              refine ⟨rfl, rfl, ?_, ?_⟩
              · simp only [List.length_take, List.length_append, List.length_replicate]
                omega
              · intro hall
                have hd := dropBytes_all sock.input _ hall
                rw [hd] at hR
                unfold Sock.Read at hR
                split_ifs at hR with h1 h2
                · simp at hR
                · simp only [Prod.mk.injEq, Except.ok.injEq] at hR
                  rw [← hR.2] at hb
                  simp only [List.length_nil] at hb
                  omega
                · simp [readChunk] at hR

/-- What `read` returns for a response is what the scan of the header
assigned, and the header has the form that the scan accepts. -/
theorem Connection.read_ok_form (c c1 : Connection) (sock : Sock) (r : Response)
    (hconn : c.conn = some sock) (h : c.read = (c1, .ret (.ok r))) :
    sock.closed = false ∧
    ∃ length : Int, LenientHeader sock.input.flatten r.Status length ∧
      (r.Body.length : Int) = length := by
  obtain ⟨herr, hst, hlen, hnot⟩ := Connection.read_ok_scan c c1 sock r hconn h
  have hopen : sock.closed = false := by
    by_contra hc
    simp only [Bool.not_eq_false] at hc
    have : (Fscanf sock.reader.1 sock.reader.2).err = some ErrClosed := by
      simp only [Sock.reader, hc, if_true]
      rfl
    rw [this] at herr
    simp at herr
  refine ⟨hopen, (Fscanf sock.reader.1 sock.reader.2).length, ?_, hlen⟩
  have hrd : sock.reader = (sock.input.flatten, sock.rderr) := by
    simp [Sock.reader, hopen]
  rw [hrd] at herr hst hnot
  simp only [] at herr hst hnot
  rw [hrd, hst]
  rcases (Fscanf_ok _ _ herr).2 with hh | hh
  · exact hh
  · exact absurd hh.2.1 hnot

/-- When the bytes on the socket do not begin with a header of the form that
the scan accepts, `read` returns an error, provided that a header of that
form which the end of the stream cuts off has no negative length. -/
theorem Connection.read_refused (c : Connection) (sock : Sock) (hconn : c.conn = some sock)
    (hno : ∀ status length : Int, ¬ LenientHeader sock.input.flatten status length)
    (hcut : ∀ status length : Int, CutHeader sock.input.flatten status length → 0 ≤ length) :
    ∃ c1 e, c.read = (c1, .ret (.error e)) := by
  unfold Connection.read
  simp only [hconn]
  cases hF : (Fscanf sock.reader.1 sock.reader.2).err with
  | some e => exact ⟨_, e, rfl⟩
  | none =>
    have hopen : sock.closed = false := by
      by_contra hc
      simp only [Bool.not_eq_false] at hc
      have : (Fscanf sock.reader.1 sock.reader.2).err = some ErrClosed := by
        simp only [Sock.reader, hc, if_true]
        rfl
      rw [this] at hF
      simp at hF
    have hrd : sock.reader = (sock.input.flatten, sock.rderr) := by
      simp [Sock.reader, hopen]
    have hF' : (Fscanf sock.input.flatten sock.rderr).err = none := by
      rw [hrd] at hF
      exact hF
    obtain ⟨hn, hcase⟩ := Fscanf_ok _ _ hF'
    rcases hcase with hl | ⟨hc, hhw, _⟩
    · exact absurd hl (hno _ _)
    · have h0 := hcut _ _ hc
      have hl : ¬ ((Fscanf sock.input.flatten sock.rderr).length + 1 < 0) := by omega
      have hsz : ((Fscanf sock.input.flatten sock.rderr).length + 1).toNat ≠ 0 := by omega
      have hR : Sock.Read
          { sock with input := dropBytes (Fscanf sock.input.flatten sock.rderr).hw sock.input }
          ((Fscanf sock.input.flatten sock.rderr).length + 1).toNat =
          ({ sock with input := [] }, .error sock.rderr) := by
        rw [dropBytes_all sock.input _ hhw]
        unfold Sock.Read
        simp [hopen, hsz, readChunk]
      simp only [hrd, hn, ne_eq, not_true_eq_false, if_false, hl, hR]
      exact ⟨_, _, rfl⟩

/-- A blank character begins with one of nine bytes. -/
theorem blankChar_lead (c : List Nat) (h : blankChar c = true) :
    ∃ b tl, c = b :: tl ∧ blankLead b = true := by
  match c, h with
  | [b], h =>
    refine ⟨b, [], rfl, ?_⟩
    simp only [blankChar, Bool.or_eq_true, beq_iff_eq] at h
    simp only [blankLead, Bool.or_eq_true, beq_iff_eq]
    omega
  | [a, b], h =>
    refine ⟨a, [b], rfl, ?_⟩
    simp only [blankChar, Bool.and_eq_true, Bool.or_eq_true, beq_iff_eq] at h
    simp only [blankLead, Bool.or_eq_true, beq_iff_eq]
    omega
  | [a, b, d], h =>
    refine ⟨a, [b, d], rfl, ?_⟩
    simp only [blankChar, Bool.and_eq_true, Bool.or_eq_true, beq_iff_eq,
      decide_eq_true_eq] at h
    simp only [blankLead, Bool.or_eq_true, beq_iff_eq]
    omega
  | [], h => simp [blankChar] at h
  | _ :: _ :: _ :: _ :: _, h => simp [blankChar] at h

/-- A header of the form that the scan accepts holds a byte that begins a
blank character: the two numbers are apart. -/
theorem HeaderForm.blank (bs : List Nat) (status length : Int) (rest : List Nat) (chars : Nat)
    (h : HeaderForm bs status length rest chars) : ∃ b ∈ bs, blankLead b = true := by
  obtain ⟨lead, tok1, sep, tok2, trail, hbs, _, _, _, hsep, hall, _⟩ := h
  cases sep with
  | nil => exact absurd rfl hsep
  | cons c cs =>
    simp only [List.all_cons, Bool.and_eq_true] at hall
    obtain ⟨b, tl, rfl, hb⟩ := blankChar_lead c hall.1
    refine ⟨b, ?_, hb⟩
    rw [hbs]
    simp

/-- C9, as amended: on a connection with a socket, `read` returns a
response only when the socket is open and the bytes on it begin with a header
in the form that the scan of the format accepts: blank characters (the spaces
of the table `space` other than the newline, in UTF-8), a status of at most 3
characters (an optional sign, then digits), at least one blank character, a
length of at most 8 characters (an optional sign, then digits), blank
characters and a newline (the newline may be missing once the header has 2^30
characters); the response has the status of the header and a body of the
length of the header. When the bytes do not begin with a header of that form,
`read` returns an error and no response, provided that a header of that form
which the end of the stream cuts off where the newline is expected has no
negative length. -/
theorem read_response_header_form (c : Connection) (sock : Sock) (hconn : c.conn = some sock) :
    (∀ (c1 : Connection) (r : Response), c.read = (c1, .ret (.ok r)) →
      sock.closed = false ∧
      ∃ length : Int, LenientHeader sock.input.flatten r.Status length ∧
        (r.Body.length : Int) = length) ∧
    ((∀ status length : Int, ¬ LenientHeader sock.input.flatten status length) →
      (∀ status length : Int, CutHeader sock.input.flatten status length → 0 ≤ length) →
      ∃ c1 e, c.read = (c1, .ret (.error e))) :=
  ⟨fun c1 r h => Connection.read_ok_form c c1 sock r hconn h,
    fun hno hcut => Connection.read_refused c sock hconn hno hcut⟩

/-- The header ` +7   3 \n`, which `read` accepts, has the form of the
theorem; the header `200\n`, which has no second number, has not, and `read`
returns an error. -/
theorem read_response_header_form_witness :
    ((Sock.fresh [ascii " +7   3 \nabc\n"]).closed = false ∧
      ∃ length : Int,
        LenientHeader (Sock.fresh [ascii " +7   3 \nabc\n"]).input.flatten
          (⟨7, ascii "abc"⟩ : Response).Status length ∧
        (((⟨7, ascii "abc"⟩ : Response).Body.length : Nat) : Int) = length) ∧
    (∃ c1 e, (Connection.fresh [ascii "200\n"]).read = (c1, .ret (.error e))) :=
  ⟨(read_response_header_form (Connection.fresh [ascii " +7   3 \nabc\n"])
      (Sock.fresh [ascii " +7   3 \nabc\n"]) rfl).1
      ((Connection.fresh [ascii " +7   3 \nabc\n"]).read).1 ⟨7, ascii "abc"⟩ (by decide),
    (read_response_header_form (Connection.fresh [ascii "200\n"])
      (Sock.fresh [ascii "200\n"]) rfl).2
      (fun status length h => by
        obtain ⟨rest, chars, hf, _⟩ := h
        obtain ⟨b, hb, hl⟩ := HeaderForm.blank _ _ _ _ _ hf
        revert b
        decide)
      (fun status length h => by
        exfalso
        obtain ⟨chars, hf⟩ := h
        obtain ⟨b, hb, hl⟩ := HeaderForm.blank _ _ _ _ _ hf
        revert b
        decide)⟩

/-- The headers of the specification are the ones that `exactHeader` accepts. -/
theorem exactHeader_header (status length : Nat) (rest : List Nat) :
    exactHeader (header status length ++ rest) = true := by
  simp only [header, zeroPad, List.nil_append, List.append_assoc, List.singleton_append,
    List.cons_append, exactHeader, List.all_cons, List.all_nil, isDigit, Bool.and_true,
    Bool.and_eq_true, decide_eq_true_eq, beq_self_eq_true]
  omega

/-- C9, counterexample: the headers `1 2\n` and ` +7   3 \n` do not have the
exact form (3 digits, a space, 8 digits, a newline), and `read` returns a
response for each; the header `1 -2`, which the end of the stream cuts off,
has not the exact form either, and `read` returns no error: it panics. -/
theorem read_accepts_other_headers :
    exactHeader (ascii "1 2\nab\n") = false ∧
    ((Connection.fresh [ascii "1 2\nab\n"]).read).2 = .ret (.ok ⟨1, ascii "ab"⟩) ∧
    exactHeader (ascii " +7   3 \nabc\n") = false ∧
    ((Connection.fresh [ascii " +7   3 \nabc\n"]).read).2 = .ret (.ok ⟨7, ascii "abc"⟩) ∧
    exactHeader (ascii "1 -2") = false ∧
    ((Connection.fresh [ascii "1 -2"]).read).2 = .panic "makeslice: len out of range" := by
  decide

/-- Headers that have not the form that the scan accepts: `1 2`, which the
end of the stream cuts off where the newline is expected, makes `read` return
the error of the stream; `200\n`, which has no second number, makes `read`
return the error of the scan. -/
theorem read_refused_examples :
    ((Connection.fresh [ascii "1 2"]).read).2 = .ret (.error .EOF) ∧
    ((Connection.fresh [ascii "200\n"]).read).2 =
      .ret (.error (.scan "newline in input does not match format")) := by
  decide

/-- A byte that belongs to no blank character, such as 0xFF, does not set the
two numbers apart: the bytes `1`, 0xFF, `2`, newline have not the form that
the scan accepts. -/
theorem LenientHeader_other_byte (status length : Int) :
    ¬ LenientHeader [49, 0xFF, 50, 10, 97, 98, 10] status length := by
  rintro ⟨rest, chars, hf, _⟩
  obtain ⟨b, hb, hl⟩ := HeaderForm.blank _ _ _ _ _ hf
  revert b
  decide

/-- On those bytes `read` returns the error of the scan; with the two bytes
of U+00A0 in place of 0xFF it returns a response. -/
theorem read_other_byte_examples :
    ((Connection.fresh [[49, 0xFF, 50, 10, 97, 98, 10]]).read).2 =
      .ret (.error (.scan "expected space in input to match format")) ∧
    ((Connection.fresh [[49, 0xC2, 0xA0, 50, 10, 97, 98, 10]]).read).2 =
      .ret (.ok ⟨1, ascii "ab"⟩) := by
  decide

end Gva
